import Mathlib

/-!
# Board state and move-legality engine of `chessGame.cpp`

A shallow embedding of the rules engine of `src/chessGame.cpp`: the piece and
board representation, the occupancy predicates, the per-piece move generators,
`calculateLegalMoves`, and the click handler `mouse` together with the
clear-selection key.

Conventions of the embedding.

* C++ `int` coordinates are `Int`.  The two global arrays `board[8][8]` and
  `legalMoves[8][8]` are total maps `Int → Int → _`; the array proper is the
  restriction of the map to the squares with `isValidSquare`.  A write through
  an index changes exactly the addressed cell of the map, so a write outside
  `[0,8) × [0,8)` would be visible as a change of a cell outside the array.
* Every function that reads or writes a global takes it as an argument and
  returns the new value.
* `for` loops over a fixed index range are folds over the list of indices, in
  the order of the loop; a loop with `break` is a recursive function on the
  number of iterations that are left.
* `moveCount` is a C++ `int`: an `Int` whose increment `moveCount++` is reduced to
  the 32-bit two's-complement range by `wrapInt32`.  Signed overflow is undefined
  in C++; the compiled program wraps from `2147483647` to `-2147483648`, and this
  is what the model does.
* The `float` arithmetic of `mouseToBoard` that turns a pixel position into the
  board coordinates `boardX`, `boardY` is left out; the conversion `(int)boardX`
  is embedded on the value of the `float`, a rational number.
* `printf` and `glutPostRedisplay` calls do not touch the game state and are
  left out.
-/

namespace Chess

/-- The enumeration `PieceType` (lines 14-16). -/
inductive PieceType where
  | PAWN | ROOK | KNIGHT | BISHOP | QUEEN | KING | EMPTY
  deriving DecidableEq, Repr

open PieceType

/-- The structure `Piece` (lines 19-26). -/
structure Piece where
  type : PieceType
  isWhite : Bool
  hasMoved : Bool
  deriving DecidableEq, Repr

/-- The default constructor `Piece()`: `type(EMPTY), isWhite(true), hasMoved(false)`. -/
def Piece.default : Piece := ⟨EMPTY, true, false⟩

/-- The constructor `Piece(PieceType t, bool white)`: `hasMoved(false)`. -/
def Piece.new (t : PieceType) (white : Bool) : Piece := ⟨t, white, false⟩

/-- The global `Piece board[8][8]`, read as `board row col`. -/
abbrev Board := Int → Int → Piece

/-- The global `bool legalMoves[8][8]`, read as `legalMoves row col`. -/
abbrev Mask := Int → Int → Bool

/-- The assignment `board[row][col] = p`. -/
def setPiece (board : Board) (row col : Int) (p : Piece) : Board :=
  fun r c => if r = row ∧ c = col then p else board r c

/-- The assignment `legalMoves[row][col] = v`. -/
def setLegal (legalMoves : Mask) (row col : Int) (v : Bool) : Mask :=
  fun r c => if r = row ∧ c = col then v else legalMoves r c

/-- The index range `0, 1, ..., 7` of `for (int i = 0; i < 8; i++)`. -/
def idx8 : List Int := [0, 1, 2, 3, 4, 5, 6, 7]

/-- The array `backRank[8]` of `initializeBoard`, read at index `col`. -/
def backRank (col : Int) : PieceType :=
  if col = 0 then ROOK
  else if col = 1 then KNIGHT
  else if col = 2 then BISHOP
  else if col = 3 then QUEEN
  else if col = 4 then KING
  else if col = 5 then BISHOP
  else if col = 6 then KNIGHT
  else ROOK

/-- The function `initializeBoard` (lines 202-234): the clearing double loop over
both arrays, then the four loops that place the pieces. -/
def initializeBoard (board : Board) (legalMoves : Mask) : Board × Mask :=
  let cleared : Board × Mask :=
    idx8.foldl (fun s row =>
      idx8.foldl (fun s col => (setPiece s.1 row col Piece.default, setLegal s.2 row col false)) s)
      (board, legalMoves)
  let b0 := idx8.foldl (fun b col => setPiece b 0 col (Piece.new (backRank col) true)) cleared.1
  let b1 := idx8.foldl (fun b col => setPiece b 1 col (Piece.new PAWN true)) b0
  let b6 := idx8.foldl (fun b col => setPiece b 6 col (Piece.new PAWN false)) b1
  let b7 := idx8.foldl (fun b col => setPiece b 7 col (Piece.new (backRank col) false)) b6
  (b7, cleared.2)

/-- The function `isValidSquare` (lines 237-239). -/
def isValidSquare (row col : Int) : Bool :=
  decide (row ≥ 0) && decide (row < 8) && decide (col ≥ 0) && decide (col < 8)

/-- The function `isEmpty` (lines 242-244). -/
def isEmpty (board : Board) (row col : Int) : Bool :=
  isValidSquare row col && decide ((board row col).type = EMPTY)

/-- The function `isEnemy` (lines 247-251). -/
def isEnemy (board : Board) (row col : Int) (isWhitePlayer : Bool) : Bool :=
  isValidSquare row col &&
    decide ((board row col).type ≠ EMPTY) &&
    decide ((board row col).isWhite ≠ isWhitePlayer)

/-- The function `isFriendly` (lines 254-258). -/
def isFriendly (board : Board) (row col : Int) (isWhitePlayer : Bool) : Bool :=
  isValidSquare row col &&
    decide ((board row col).type ≠ EMPTY) &&
    decide ((board row col).isWhite = isWhitePlayer)

/-- The local `direction` of `calculatePawnMoves`: `isWhite ? 1 : -1`. -/
def direction (isWhite : Bool) : Int := if isWhite then 1 else -1

/-- The local `startRow` of `calculatePawnMoves`: `isWhite ? 1 : 6`. -/
def startRow (isWhite : Bool) : Int := if isWhite then 1 else 6

/-- The function `calculatePawnMoves` (lines 261-283). -/
def calculatePawnMoves (board : Board) (legalMoves : Mask) (row col : Int) (isWhite : Bool) :
    Mask :=
  let newRow := row + direction isWhite
  let m1 :=
    if isEmpty board newRow col then
      let m := setLegal legalMoves newRow col true
      if row = startRow isWhite ∧ isEmpty board (newRow + direction isWhite) col then
        setLegal m (newRow + direction isWhite) col true
      else m
    else legalMoves
  let m2 := if isEnemy board newRow (col - 1) isWhite then setLegal m1 newRow (col - 1) true else m1
  if isEnemy board newRow (col + 1) isWhite then setLegal m2 newRow (col + 1) true else m2

/-- The inner loop `for (int i = 1; i < 8; i++)` of `calculateRookMoves` and of
`calculateBishopMoves` (the two bodies are the same text), for one direction
`(dr, dc)`: `n` is the number of iterations left and `i` the loop variable.  The
three exits without a recursive call are the three `break`s. -/
def slideLoop (board : Board) (row col : Int) (isWhite : Bool) (dr dc : Int) :
    Nat → Int → Mask → Mask
  | 0, _, legalMoves => legalMoves
  | n + 1, i, legalMoves =>
    let newRow := row + i * dr
    let newCol := col + i * dc
    if !isValidSquare newRow newCol then legalMoves
    else if isEmpty board newRow newCol then
      slideLoop board row col isWhite dr dc n (i + 1) (setLegal legalMoves newRow newCol true)
    else if isEnemy board newRow newCol isWhite then
      setLegal legalMoves newRow newCol true
    else legalMoves

/-- The array `directions[4][2]` of `calculateRookMoves`. -/
def rookDirections : List (Int × Int) := [(0, 1), (0, -1), (1, 0), (-1, 0)]

/-- The array `directions[4][2]` of `calculateBishopMoves`. -/
def bishopDirections : List (Int × Int) := [(1, 1), (1, -1), (-1, 1), (-1, -1)]

/-- The function `calculateRookMoves` (lines 286-312): the loop over the four
directions around the sliding loop, which runs `i = 1, ..., 7`. -/
def calculateRookMoves (board : Board) (legalMoves : Mask) (row col : Int) (isWhite : Bool) :
    Mask :=
  rookDirections.foldl (fun m d => slideLoop board row col isWhite d.1 d.2 7 1 m) legalMoves

/-- The function `calculateBishopMoves` (lines 315-341). -/
def calculateBishopMoves (board : Board) (legalMoves : Mask) (row col : Int) (isWhite : Bool) :
    Mask :=
  bishopDirections.foldl (fun m d => slideLoop board row col isWhite d.1 d.2 7 1 m) legalMoves

/-- The array `knightMoves[8][2]` of `calculateKnightMoves`. -/
def knightMoves : List (Int × Int) :=
  [(2, 1), (2, -1), (-2, 1), (-2, -1), (1, 2), (1, -2), (-1, 2), (-1, -2)]

/-- The function `calculateKnightMoves` (lines 344-360). -/
def calculateKnightMoves (board : Board) (legalMoves : Mask) (row col : Int) (isWhite : Bool) :
    Mask :=
  knightMoves.foldl (fun m k =>
    let newRow := row + k.1
    let newCol := col + k.2
    if isValidSquare newRow newCol &&
        (isEmpty board newRow newCol || isEnemy board newRow newCol isWhite) then
      setLegal m newRow newCol true
    else m) legalMoves

/-- The function `calculateQueenMoves` (lines 363-366). -/
def calculateQueenMoves (board : Board) (legalMoves : Mask) (row col : Int) (isWhite : Bool) :
    Mask :=
  calculateBishopMoves board (calculateRookMoves board legalMoves row col isWhite) row col isWhite

/-- The index range `-1, 0, 1` of `for (int dr = -1; dr <= 1; dr++)`. -/
def idx3 : List Int := [-1, 0, 1]

/-- The function `calculateKingMoves` (lines 369-384); the `continue` leaves the
mask as it is. -/
def calculateKingMoves (board : Board) (legalMoves : Mask) (row col : Int) (isWhite : Bool) :
    Mask :=
  idx3.foldl (fun m dr =>
    idx3.foldl (fun m dc =>
      if dr = 0 ∧ dc = 0 then m
      else
        let newRow := row + dr
        let newCol := col + dc
        if isValidSquare newRow newCol &&
            (isEmpty board newRow newCol || isEnemy board newRow newCol isWhite) then
          setLegal m newRow newCol true
        else m) m) legalMoves

/-- The clearing double loop at the head of `calculateLegalMoves` (lines 389-393). -/
def clearLegalMoves (legalMoves : Mask) : Mask :=
  idx8.foldl (fun m r => idx8.foldl (fun m c => setLegal m r c false) m) legalMoves

/-- The function `calculateLegalMoves` (lines 387-424).  The test
`row == -1 || col == -1 || board[row][col].type == EMPTY` is evaluated left to
right, so the board is read only when neither coordinate is `-1`. -/
def calculateLegalMoves (board : Board) (legalMoves : Mask) (row col : Int) : Mask :=
  let m := clearLegalMoves legalMoves
  if row = -1 then m
  else if col = -1 then m
  else if (board row col).type = EMPTY then m
  else
    let piece := board row col
    match piece.type with
    | PAWN => calculatePawnMoves board m row col piece.isWhite
    | ROOK => calculateRookMoves board m row col piece.isWhite
    | BISHOP => calculateBishopMoves board m row col piece.isWhite
    | KNIGHT => calculateKnightMoves board m row col piece.isWhite
    | QUEEN => calculateQueenMoves board m row col piece.isWhite
    | KING => calculateKingMoves board m row col piece.isWhite
    | EMPTY => m

/-- The globals that make up the game state (lines 29-39); the hover
coordinates `highlightedRow`, `highlightedCol` are used for drawing only. -/
structure GameState where
  board : Board
  legalMoves : Mask
  isWhiteTurn : Bool
  moveCount : Int
  selectedRow : Int
  selectedCol : Int

/-- The conversion `(int)x` of a `float` value `x` (lines 1516-1517): the integer
part, rounded toward zero. -/
def castToInt (x : Rat) : Int := Int.tdiv x.num x.den

/-- The end of `mouseToBoard` (lines 1516-1523), from the values `boardX`, `boardY`
of the two `float` variables: the conversions to `int`, and the range check that
replaces an out-of-range pair by `(-1, -1)`.  The square `(row, col)` of the
board covers the board coordinates `col ≤ boardX < col + 1`,
`row ≤ boardY < row + 1`.  The result is the pair `(col, row)`. -/
def mouseToBoard (boardX boardY : Rat) : Int × Int :=
  let boardCol := castToInt boardX
  let boardRow := castToInt boardY
  if boardCol < 0 ∨ boardCol ≥ 8 ∨ boardRow < 0 ∨ boardRow ≥ 8 then (-1, -1)
  else (boardCol, boardRow)

/-- The value that an `int` holds after an arithmetic result `x`: `x` reduced to
the 32-bit two's-complement range `-2147483648 .. 2147483647`. -/
def wrapInt32 (x : Int) : Int := (x + 2147483648) % 4294967296 - 2147483648

/-- The click handler `mouse` (lines 1527-1610) for a left-button press, from the
point where `mouseToBoard` has produced `col` and `row`. -/
def mouse (s : GameState) (row col : Int) : GameState :=
  if col ≠ -1 ∧ row ≠ -1 then
    if s.selectedRow = -1 ∧ s.selectedCol = -1 then
      if (s.board row col).type ≠ EMPTY ∧ (s.board row col).isWhite = s.isWhiteTurn then
        { s with
          selectedRow := row
          selectedCol := col
          legalMoves := calculateLegalMoves s.board s.legalMoves row col }
      else s
    else if s.selectedRow = row ∧ s.selectedCol = col then
      { s with
        selectedRow := -1
        selectedCol := -1
        legalMoves := calculateLegalMoves s.board s.legalMoves (-1) (-1) }
    else if s.legalMoves row col = true then
      let b1 := setPiece s.board row col (s.board s.selectedRow s.selectedCol)
      let b2 := setPiece b1 s.selectedRow s.selectedCol Piece.default
      let b3 := setPiece b2 row col { b2 row col with hasMoved := true }
      { board := b3
        legalMoves := calculateLegalMoves b3 s.legalMoves (-1) (-1)
        isWhiteTurn := !s.isWhiteTurn
        moveCount := wrapInt32 (s.moveCount + 1)
        selectedRow := -1
        selectedCol := -1 }
    else if (s.board row col).type ≠ EMPTY ∧ (s.board row col).isWhite = s.isWhiteTurn then
      { s with
        selectedRow := row
        selectedCol := col
        legalMoves := calculateLegalMoves s.board s.legalMoves row col }
    else s
  else s

/-- The branch `case 'c': case 'C':` of `keyboard` (lines 1486-1494). -/
def clearSelection (s : GameState) : GameState :=
  { s with
    selectedRow := -1
    selectedCol := -1
    legalMoves := calculateLegalMoves s.board s.legalMoves (-1) (-1) }

/-- The state at the end of `init`: the globals with their static initial values
(default-constructed pieces, `false` mask, `isWhiteTurn = true`, `moveCount = 0`,
selection `-1, -1`) after the call of `initializeBoard`. -/
def initialState : GameState :=
  let bm := initializeBoard (fun _ _ => Piece.default) (fun _ _ => false)
  { board := bm.1
    legalMoves := bm.2
    isWhiteTurn := true
    moveCount := 0
    selectedRow := -1
    selectedCol := -1 }

/-- The states the program can be in: the initial state, and what a click that
`mouseToBoard` resolves to a square of the board, a click that it resolves to
`-1, -1`, or the clear-selection key makes of such a state. -/
inductive Reachable : GameState → Prop
  | init : Reachable initialState
  | click (s : GameState) (row col : Int) :
      Reachable s → isValidSquare row col = true → Reachable (mouse s row col)
  | offBoard (s : GameState) : Reachable s → Reachable (mouse s (-1) (-1))
  | clear (s : GameState) : Reachable s → Reachable (clearSelection s)

/-- The initial state after a click on the White pawn on `(1, 4)`. -/
def pawnE2Selected : GameState := mouse initialState 1 4

/-- The state with the pawn on `(1, 4)` selected and the counter at the largest
`int`, `2147483647`. -/
def pawnE2SelectedAtMax : GameState := { pawnE2Selected with moveCount := 2147483647 }

/-- The state after the selected pawn has moved from `(1, 4)` to `(3, 4)`. -/
def pawnE2Moved : GameState := mouse pawnE2Selected 3 4

/-- The sliding loop of `calculateRookMoves` and `calculateBishopMoves`, started
on `(row, col)` in direction `(dr, dc)`, reaches `(x, y)`: the square is the
`j`-th of the ray for some `1 ≤ j < 8`, the squares before it on the ray are
Empty, and it is Empty or holds an enemy of the colour `w`. -/
def RayHit (board : Board) (row col : Int) (w : Bool) (dr dc : Int) (x y : Int) : Prop :=
  ∃ j : Int, 1 ≤ j ∧ j < 8 ∧ x = row + j * dr ∧ y = col + j * dc ∧
    (∀ k : Int, 1 ≤ k → k < j → isEmpty board (row + k * dr) (col + k * dc) = true) ∧
    (isEmpty board x y = true ∨ isEnemy board x y w = true)

/-- The square `(x, y)` lies strictly between `(r, c)` and `(r', c')` on their
common row or on their common column. -/
def betweenStraight (r c r' c' x y : Int) : Prop :=
  (x = r ∧ r' = r ∧ ((c < y ∧ y < c') ∨ (c' < y ∧ y < c))) ∨
    (y = c ∧ c' = c ∧ ((r < x ∧ x < r') ∨ (r' < x ∧ x < r)))

/-- The square `(x, y)` lies strictly between `(r, c)` and `(r', c')` on their
common diagonal. -/
def betweenDiagonal (r c r' c' x y : Int) : Prop :=
  ((r < x ∧ x < r') ∨ (r' < x ∧ x < r)) ∧
    ((x - r = y - c ∧ r' - r = c' - c) ∨ (x - r = c - y ∧ r' - r = c - c'))

/-- Scenario 6 of the specification: a White rook on `(3, 3)`, Black pieces on
`(3, 6)` and `(3, 1)`, every other square Empty. -/
def rookScenario : Board :=
  setPiece (setPiece (setPiece (fun _ _ => Piece.default) 3 3 (Piece.new ROOK true))
    3 6 (Piece.new PAWN false)) 3 1 (Piece.new PAWN false)

/-- A position for the bishop: a White bishop on `(2, 2)`, a Black pawn on
`(4, 4)`, a White pawn on `(0, 0)`, every other square Empty. -/
def bishopScenario : Board :=
  setPiece (setPiece (setPiece (fun _ _ => Piece.default) 2 2 (Piece.new BISHOP true))
    4 4 (Piece.new PAWN false)) 0 0 (Piece.new PAWN true)

/-- A position for the queen: `rookScenario` with a White queen in place of the
rook on `(3, 3)`. -/
def queenScenario : Board := setPiece rookScenario 3 3 (Piece.new QUEEN true)

/-- The function `keyboard` (lines 1476-1496) on the game state; `none` is the
end of the process by `exit(0)` on the ESC key (code 27).  The keys `r`, `R`
only redraw, and any other key does nothing. -/
def keyboard (s : GameState) (key : Char) : Option GameState :=
  if key.toNat = 27 then none
  else if key = 'r' ∨ key = 'R' then some s
  else if key = 'c' ∨ key = 'C' then some (clearSelection s)
  else some s

/-- The initial board with the `hasMoved` flag of every piece set. -/
def initialBoardAllMoved : Board := fun r c => { initialState.board r c with hasMoved := true }

/-- A sequence of clicks on squares `(row, col)`, handled one after the other. -/
def clickAll (s : GameState) (clicks : List (Int × Int)) : GameState :=
  clicks.foldl (fun s p => mouse s p.1 p.2) s

/-- Ten clicks from the initial state: pawn `(1, 4)` to `(3, 4)`, Black pawn
`(6, 5)` to `(5, 5)`, queen `(0, 3)` to `(4, 7)`, Black pawn `(6, 0)` to `(5, 0)`,
queen `(4, 7)` to `(7, 4)`. -/
def kingCaptureClicks : List (Int × Int) :=
  [(1, 4), (3, 4), (6, 5), (5, 5), (0, 3), (4, 7), (6, 0), (5, 0), (4, 7), (7, 4)]

/-- The state after `kingCaptureClicks`. -/
def kingCaptured : GameState := clickAll initialState kingCaptureClicks

/-- Every pawn on the board stands on its start row or ahead of it, and its
`hasMoved` flag is false exactly on the start row. -/
def PawnRows (board : Board) : Prop :=
  ∀ r c : Int, isValidSquare r c = true → (board r c).type = PAWN →
    ((board r c).isWhite = true → 1 ≤ r ∧ ((board r c).hasMoved = false ↔ r = 1)) ∧
    ((board r c).isWhite = false → r ≤ 6 ∧ ((board r c).hasMoved = false ↔ r = 6))

/-! ### The generators with checked array indexing

The same functions once more, with every access to `board[][]` and to
`legalMoves[][]` going through an accessor that returns `none` when an index is
outside `0..7`.  The operators `&&` and `||` of the source evaluate their right
operand only when needed, and so do the functions below. -/

/-- A read `board[row][col]`: `none` when an index is out of range. -/
def readBoard (board : Board) (row col : Int) : Option Piece :=
  if 0 ≤ row ∧ row < 8 ∧ 0 ≤ col ∧ col < 8 then some (board row col) else none

/-- A write `legalMoves[row][col] = v`: `none` when an index is out of range. -/
def writeLegal (legalMoves : Mask) (row col : Int) (v : Bool) : Option Mask :=
  if 0 ≤ row ∧ row < 8 ∧ 0 ≤ col ∧ col < 8 then some (setLegal legalMoves row col v) else none

/-- The function `isEmpty` with checked indexing. -/
def isEmptyChecked (board : Board) (row col : Int) : Option Bool :=
  if isValidSquare row col = true then
    (readBoard board row col).bind fun p => some (decide (p.type = EMPTY))
  else some false

/-- The function `isEnemy` with checked indexing. -/
def isEnemyChecked (board : Board) (row col : Int) (isWhitePlayer : Bool) : Option Bool :=
  if isValidSquare row col = true then
    (readBoard board row col).bind fun p =>
      if p.type ≠ EMPTY then
        (readBoard board row col).bind fun q => some (decide (q.isWhite ≠ isWhitePlayer))
      else some false
  else some false

/-- The function `isFriendly` with checked indexing. -/
def isFriendlyChecked (board : Board) (row col : Int) (isWhitePlayer : Bool) : Option Bool :=
  if isValidSquare row col = true then
    (readBoard board row col).bind fun p =>
      if p.type ≠ EMPTY then
        (readBoard board row col).bind fun q => some (decide (q.isWhite = isWhitePlayer))
      else some false
  else some false

/-- The function `calculatePawnMoves` with checked indexing. -/
def calculatePawnMovesChecked (board : Board) (legalMoves : Mask) (row col : Int)
    (isWhite : Bool) : Option Mask :=
  let newRow := row + direction isWhite
  (isEmptyChecked board newRow col).bind fun e1 =>
  (if e1 = true then
    (writeLegal legalMoves newRow col true).bind fun m =>
      if row = startRow isWhite then
        (isEmptyChecked board (newRow + direction isWhite) col).bind fun e2 =>
          if e2 = true then writeLegal m (newRow + direction isWhite) col true else some m
      else some m
  else some legalMoves).bind fun m1 =>
  (isEnemyChecked board newRow (col - 1) isWhite).bind fun n1 =>
  (if n1 = true then writeLegal m1 newRow (col - 1) true else some m1).bind fun m2 =>
  (isEnemyChecked board newRow (col + 1) isWhite).bind fun n2 =>
  if n2 = true then writeLegal m2 newRow (col + 1) true else some m2

/-- The sliding loop of `calculateRookMoves` and `calculateBishopMoves` with
checked indexing. -/
def slideLoopChecked (board : Board) (row col : Int) (isWhite : Bool) (dr dc : Int) :
    Nat → Int → Mask → Option Mask
  | 0, _, legalMoves => some legalMoves
  | n + 1, i, legalMoves =>
    let newRow := row + i * dr
    let newCol := col + i * dc
    if !isValidSquare newRow newCol then some legalMoves
    else
      (isEmptyChecked board newRow newCol).bind fun e =>
        if e = true then
          (writeLegal legalMoves newRow newCol true).bind fun m =>
            slideLoopChecked board row col isWhite dr dc n (i + 1) m
        else
          (isEnemyChecked board newRow newCol isWhite).bind fun en =>
            if en = true then writeLegal legalMoves newRow newCol true else some legalMoves

/-- The function `calculateRookMoves` with checked indexing. -/
def calculateRookMovesChecked (board : Board) (legalMoves : Mask) (row col : Int)
    (isWhite : Bool) : Option Mask :=
  rookDirections.foldlM (fun m d => slideLoopChecked board row col isWhite d.1 d.2 7 1 m)
    legalMoves

/-- The function `calculateBishopMoves` with checked indexing. -/
def calculateBishopMovesChecked (board : Board) (legalMoves : Mask) (row col : Int)
    (isWhite : Bool) : Option Mask :=
  bishopDirections.foldlM (fun m d => slideLoopChecked board row col isWhite d.1 d.2 7 1 m)
    legalMoves

/-- The function `calculateKnightMoves` with checked indexing. -/
def calculateKnightMovesChecked (board : Board) (legalMoves : Mask) (row col : Int)
    (isWhite : Bool) : Option Mask :=
  knightMoves.foldlM (fun m k =>
    let newRow := row + k.1
    let newCol := col + k.2
    if isValidSquare newRow newCol = true then
      (isEmptyChecked board newRow newCol).bind fun e =>
        if e = true then writeLegal m newRow newCol true
        else
          (isEnemyChecked board newRow newCol isWhite).bind fun en =>
            if en = true then writeLegal m newRow newCol true else some m
    else some m) legalMoves

/-- The function `calculateQueenMoves` with checked indexing. -/
def calculateQueenMovesChecked (board : Board) (legalMoves : Mask) (row col : Int)
    (isWhite : Bool) : Option Mask :=
  (calculateRookMovesChecked board legalMoves row col isWhite).bind fun m =>
    calculateBishopMovesChecked board m row col isWhite

/-- The function `calculateKingMoves` with checked indexing. -/
def calculateKingMovesChecked (board : Board) (legalMoves : Mask) (row col : Int)
    (isWhite : Bool) : Option Mask :=
  idx3.foldlM (fun m dr =>
    idx3.foldlM (fun m dc =>
      if dr = 0 ∧ dc = 0 then some m
      else
        let newRow := row + dr
        let newCol := col + dc
        if isValidSquare newRow newCol = true then
          (isEmptyChecked board newRow newCol).bind fun e =>
            if e = true then writeLegal m newRow newCol true
            else
              (isEnemyChecked board newRow newCol isWhite).bind fun en =>
                if en = true then writeLegal m newRow newCol true else some m
        else some m) m) legalMoves

/-- The clearing double loop of `calculateLegalMoves` with checked indexing. -/
def clearLegalMovesChecked (legalMoves : Mask) : Option Mask :=
  idx8.foldlM (fun m r => idx8.foldlM (fun m c => writeLegal m r c false) m) legalMoves

/-- The function `calculateLegalMoves` with checked indexing. -/
def calculateLegalMovesChecked (board : Board) (legalMoves : Mask) (row col : Int) :
    Option Mask :=
  (clearLegalMovesChecked legalMoves).bind fun m =>
    if row = -1 then some m
    else if col = -1 then some m
    else
      (readBoard board row col).bind fun p =>
        if p.type = EMPTY then some m
        else
          (readBoard board row col).bind fun piece =>
            match piece.type with
            | PAWN => calculatePawnMovesChecked board m row col piece.isWhite
            | ROOK => calculateRookMovesChecked board m row col piece.isWhite
            | BISHOP => calculateBishopMovesChecked board m row col piece.isWhite
            | KNIGHT => calculateKnightMovesChecked board m row col piece.isWhite
            | QUEEN => calculateQueenMovesChecked board m row col piece.isWhite
            | KING => calculateKingMovesChecked board m row col piece.isWhite
            | EMPTY => some m

/-- A White knight in the corner `(0, 0)` of an otherwise empty board. -/
def cornerKnight : Board := setPiece (fun _ _ => Piece.default) 0 0 (Piece.new KNIGHT true)

/-- A White pawn on its last rank, on `(7, 0)` of an otherwise empty board. -/
def lastRankPawn : Board := setPiece (fun _ _ => Piece.default) 7 0 (Piece.new PAWN true)

/-! ## Basic facts about the arrays and the predicates -/

@[simp] theorem setPiece_apply (board : Board) (row col : Int) (p : Piece) (r c : Int) :
    setPiece board row col p r c = if r = row ∧ c = col then p else board r c := rfl

@[simp] theorem setLegal_apply (legalMoves : Mask) (row col : Int) (v : Bool) (r c : Int) :
    setLegal legalMoves row col v r c = if r = row ∧ c = col then v else legalMoves r c := rfl

theorem isValidSquare_iff (row col : Int) :
    isValidSquare row col = true ↔ 0 ≤ row ∧ row < 8 ∧ 0 ≤ col ∧ col < 8 := by
  simp [isValidSquare, and_assoc]

theorem isValidSquare_eq_false_iff (row col : Int) :
    isValidSquare row col = false ↔ ¬ (0 ≤ row ∧ row < 8 ∧ 0 ≤ col ∧ col < 8) := by
  rw [← isValidSquare_iff]; simp

theorem isEmpty_iff (board : Board) (row col : Int) :
    isEmpty board row col = true ↔
      isValidSquare row col = true ∧ (board row col).type = EMPTY := by
  simp [isEmpty]

theorem isEnemy_iff (board : Board) (row col : Int) (w : Bool) :
    isEnemy board row col w = true ↔
      isValidSquare row col = true ∧ (board row col).type ≠ EMPTY ∧
        (board row col).isWhite ≠ w := by
  simp [isEnemy, and_assoc]

theorem isFriendly_iff (board : Board) (row col : Int) (w : Bool) :
    isFriendly board row col w = true ↔
      isValidSquare row col = true ∧ (board row col).type ≠ EMPTY ∧
        (board row col).isWhite = w := by
  simp [isFriendly, and_assoc]

/-- The clearing loop sets the 64 cells of the array to `false` and leaves every
other cell of the map alone. -/
theorem clearLegalMoves_apply (legalMoves : Mask) (r c : Int) :
    clearLegalMoves legalMoves r c = if isValidSquare r c = true then false else legalMoves r c := by
  by_cases h : isValidSquare r c = true
  · rw [if_pos h]
    rw [isValidSquare_iff] at h
    obtain ⟨h1, h2, h3, h4⟩ := h
    have hr : r = 0 ∨ r = 1 ∨ r = 2 ∨ r = 3 ∨ r = 4 ∨ r = 5 ∨ r = 6 ∨ r = 7 := by omega
    have hc : c = 0 ∨ c = 1 ∨ c = 2 ∨ c = 3 ∨ c = 4 ∨ c = 5 ∨ c = 6 ∨ c = 7 := by omega
    rcases hr with rfl | rfl | rfl | rfl | rfl | rfl | rfl | rfl <;>
      rcases hc with rfl | rfl | rfl | rfl | rfl | rfl | rfl | rfl <;>
      simp [clearLegalMoves, idx8]
  · rw [if_neg h]
    have h0 : ¬ (0 ≤ r ∧ r < 8 ∧ 0 ≤ c ∧ c < 8) := fun h1 => h ((isValidSquare_iff r c).2 h1)
    simp only [clearLegalMoves, idx8, List.foldl_cons, List.foldl_nil, setLegal_apply]
    have : ∀ (a b : Int), 0 ≤ a → a < 8 → 0 ≤ b → b < 8 → ¬ (r = a ∧ c = b) := by
      intro a b ha1 ha2 hb1 hb2 hab
      exact h0 (by omega)
    simp [this]

/-- The call `calculateLegalMoves(-1, -1)` only clears the mask. -/
theorem calculateLegalMoves_none (board : Board) (legalMoves : Mask) :
    calculateLegalMoves board legalMoves (-1) (-1) = clearLegalMoves legalMoves := by
  simp [calculateLegalMoves]

/-! ## The click handler -/

/-- The counter after an increment below the largest `int`. -/
theorem wrapInt32_succ (n : Int) (h : -2147483648 ≤ n ∧ n < 2147483647) :
    wrapInt32 (n + 1) = n + 1 := by
  unfold wrapInt32
  omega

/-- C1, the claim as stated fails: in the state with the pawn on `(1, 4)` selected
and `moveCount = 2147483647`, the click on the marked square `(3, 4)` executes the
move and the 32-bit counter becomes `-2147483648`, not the old value plus one. -/
theorem C1_counterexample :
    (isValidSquare pawnE2SelectedAtMax.selectedRow pawnE2SelectedAtMax.selectedCol = true ∧
      isValidSquare 3 4 = true ∧
      ¬ ((3 : Int) = pawnE2SelectedAtMax.selectedRow ∧
        (4 : Int) = pawnE2SelectedAtMax.selectedCol) ∧
      pawnE2SelectedAtMax.legalMoves 3 4 = true) ∧
    pawnE2SelectedAtMax.moveCount = 2147483647 ∧
    (mouse pawnE2SelectedAtMax 3 4).moveCount = -2147483648 ∧
    ¬ ((mouse pawnE2SelectedAtMax 3 4).moveCount = pawnE2SelectedAtMax.moveCount + 1) := by
  decide

/-- C1 as amended (move execution): with an in-bounds selection and an in-bounds
click on a different square that the mask marks, `mouse` copies the selected piece
to the clicked square with `hasMoved = true` (same kind and colour), leaves the
default Empty piece on the source, changes no other square, negates `isWhiteTurn`,
resets the selection to `(-1, -1)` and leaves every entry of the mask false; and
`moveCount` is the old value plus one whenever the old value is an `int` below
`2147483647`. -/
theorem C1_move_execution (s : GameState) (row col : Int)
    (hsel : isValidSquare s.selectedRow s.selectedCol = true)
    (hdst : isValidSquare row col = true)
    (hne : ¬ (row = s.selectedRow ∧ col = s.selectedCol))
    (hlegal : s.legalMoves row col = true) :
    (mouse s row col).board row col
        = { s.board s.selectedRow s.selectedCol with hasMoved := true } ∧
      ((mouse s row col).board row col).type = (s.board s.selectedRow s.selectedCol).type ∧
      ((mouse s row col).board row col).isWhite = (s.board s.selectedRow s.selectedCol).isWhite ∧
      ((mouse s row col).board row col).hasMoved = true ∧
      (mouse s row col).board s.selectedRow s.selectedCol = ⟨EMPTY, true, false⟩ ∧
      (∀ r c : Int, ¬ (r = row ∧ c = col) → ¬ (r = s.selectedRow ∧ c = s.selectedCol) →
        (mouse s row col).board r c = s.board r c) ∧
      ((-2147483648 ≤ s.moveCount ∧ s.moveCount < 2147483647) →
        (mouse s row col).moveCount = s.moveCount + 1) ∧
      (mouse s row col).isWhiteTurn = (!s.isWhiteTurn) ∧
      (mouse s row col).selectedRow = -1 ∧
      (mouse s row col).selectedCol = -1 ∧
      (∀ r c : Int, isValidSquare r c = true → (mouse s row col).legalMoves r c = false) := by
  have hs := (isValidSquare_iff _ _).1 hsel
  have hd := (isValidSquare_iff _ _).1 hdst
  have h1 : col ≠ -1 ∧ row ≠ -1 := ⟨by omega, by omega⟩
  have h2 : ¬ (s.selectedRow = -1 ∧ s.selectedCol = -1) := fun h => by omega
  have h3 : ¬ (s.selectedRow = row ∧ s.selectedCol = col) := fun h => hne ⟨h.1.symm, h.2.symm⟩
  have h4 : ¬ (s.selectedRow = row ∧ s.selectedCol = col) := h3
  have hm : mouse s row col =
      { board := setPiece (setPiece (setPiece s.board row col (s.board s.selectedRow s.selectedCol))
            s.selectedRow s.selectedCol Piece.default) row col
            { setPiece (setPiece s.board row col (s.board s.selectedRow s.selectedCol))
                s.selectedRow s.selectedCol Piece.default row col with hasMoved := true }
        legalMoves := calculateLegalMoves
          (setPiece (setPiece (setPiece s.board row col (s.board s.selectedRow s.selectedCol))
            s.selectedRow s.selectedCol Piece.default) row col
            { setPiece (setPiece s.board row col (s.board s.selectedRow s.selectedCol))
                s.selectedRow s.selectedCol Piece.default row col with hasMoved := true })
          s.legalMoves (-1) (-1)
        isWhiteTurn := !s.isWhiteTurn
        moveCount := wrapInt32 (s.moveCount + 1)
        selectedRow := -1
        selectedCol := -1 } := by
    simp only [mouse, if_pos h1, if_neg h2, if_neg h3, if_pos hlegal]
  rw [hm]
  refine ⟨?_, ?_, ?_, ?_, ?_, ?_, wrapInt32_succ s.moveCount, rfl, rfl, rfl, ?_⟩
  · simp [hne]
  · simp [hne]
  · simp [hne]
  · simp
  · simp [h3, Piece.default]
  · intro r c hrc hsc
    simp [hrc, hsc]
  · intro r c hv
    simp only [calculateLegalMoves_none, clearLegalMoves_apply, if_pos hv]

/-- C1 as amended, at a concrete input: scenario 2 of the specification, the pawn
selected on `(1, 4)` moves to `(3, 4)` and the counter goes from `0` to `1`. -/
theorem C1_move_execution_witness :
    (mouse pawnE2Selected 3 4).board 3 4 = ⟨PAWN, true, true⟩ ∧
      (mouse pawnE2Selected 3 4).board 1 4 = ⟨EMPTY, true, false⟩ ∧
      (mouse pawnE2Selected 3 4).moveCount = 1 ∧
      (mouse pawnE2Selected 3 4).isWhiteTurn = false ∧
      (mouse pawnE2Selected 3 4).selectedRow = -1 ∧
      (mouse pawnE2Selected 3 4).selectedCol = -1 ∧
      (∀ r c : Int, isValidSquare r c = true → (mouse pawnE2Selected 3 4).legalMoves r c = false) := by
  have h := C1_move_execution pawnE2Selected 3 4 (by decide) (by decide) (by decide) (by decide)
  exact ⟨h.1, h.2.2.2.2.1, h.2.2.2.2.2.2.1 (by decide), h.2.2.2.2.2.2.2.1,
    h.2.2.2.2.2.2.2.2.1, h.2.2.2.2.2.2.2.2.2.1, h.2.2.2.2.2.2.2.2.2.2⟩

/-- The selection is none, or an in-bounds square with a piece of the side to move. -/
theorem selection_invariant_mouse (s : GameState) (row col : Int)
    (hclick : isValidSquare row col = true ∨ (row = -1 ∧ col = -1))
    (h : (s.selectedRow = -1 ∧ s.selectedCol = -1) ∨
      (isValidSquare s.selectedRow s.selectedCol = true ∧
        (s.board s.selectedRow s.selectedCol).type ≠ EMPTY ∧
        (s.board s.selectedRow s.selectedCol).isWhite = s.isWhiteTurn)) :
    ((mouse s row col).selectedRow = -1 ∧ (mouse s row col).selectedCol = -1) ∨
      (isValidSquare (mouse s row col).selectedRow (mouse s row col).selectedCol = true ∧
        ((mouse s row col).board (mouse s row col).selectedRow (mouse s row col).selectedCol).type
          ≠ EMPTY ∧
        ((mouse s row col).board (mouse s row col).selectedRow (mouse s row col).selectedCol).isWhite
          = (mouse s row col).isWhiteTurn) := by
  rcases hclick with hv | ⟨rfl, rfl⟩
  · unfold mouse
    split_ifs with h1 h2 h3 h4 h5 h6
    · exact Or.inr ⟨hv, h3.1, h3.2⟩
    · exact h
    · exact Or.inl ⟨rfl, rfl⟩
    · exact Or.inl ⟨rfl, rfl⟩
    · exact Or.inr ⟨hv, h6.1, h6.2⟩
    · exact h
    · exact h
  · simpa [mouse] using h

theorem reachable_selection (s : GameState) (hs : Reachable s) :
    (s.selectedRow = -1 ∧ s.selectedCol = -1) ∨
      (isValidSquare s.selectedRow s.selectedCol = true ∧
        (s.board s.selectedRow s.selectedCol).type ≠ EMPTY ∧
        (s.board s.selectedRow s.selectedCol).isWhite = s.isWhiteTurn) := by
  induction hs with
  | init => exact Or.inl ⟨rfl, rfl⟩
  | click s row col _ hv ih => exact selection_invariant_mouse s row col (Or.inl hv) ih
  | offBoard s _ ih => exact selection_invariant_mouse s (-1) (-1) (Or.inr ⟨rfl, rfl⟩) ih
  | clear s _ _ => exact Or.inl ⟨rfl, rfl⟩

/-- A click changes `moveCount` only in the move branch of `mouse`. -/
theorem mouse_moveCount_ne (s : GameState) (row col : Int)
    (h : (mouse s row col).moveCount ≠ s.moveCount) :
    ¬ (s.selectedRow = -1 ∧ s.selectedCol = -1) ∧
      ¬ (s.selectedRow = row ∧ s.selectedCol = col) ∧ s.legalMoves row col = true := by
  unfold mouse at h
  split_ifs at h with h1 h2 h3 h4 h5 h6
  all_goals first
    | exact absurd rfl h
    | exact ⟨h2, h4, h5⟩

/-- C2 (turn enforcement): in every reachable state the selection is `(-1, -1)`
or an in-bounds square that holds a non-Empty piece of the colour of the side to
move; so whenever a click on a square executes a move (the move counter
changes), the piece on the source square is a piece of the side to move and it
is this piece that arrives on the clicked square; and a click on a square whose
piece has not the colour of the side to move never makes that square the
selection. -/
theorem C2_turn_enforcement (s : GameState) (hs : Reachable s) :
    ((s.selectedRow = -1 ∧ s.selectedCol = -1) ∨
      (isValidSquare s.selectedRow s.selectedCol = true ∧
        (s.board s.selectedRow s.selectedCol).type ≠ EMPTY ∧
        (s.board s.selectedRow s.selectedCol).isWhite = s.isWhiteTurn)) ∧
    (∀ row col : Int, isValidSquare row col = true →
      (mouse s row col).moveCount ≠ s.moveCount →
        (s.board s.selectedRow s.selectedCol).type ≠ EMPTY ∧
        (s.board s.selectedRow s.selectedCol).isWhite = s.isWhiteTurn ∧
        ((mouse s row col).board row col).type = (s.board s.selectedRow s.selectedCol).type ∧
        ((mouse s row col).board row col).isWhite = s.isWhiteTurn) ∧
    (∀ row col : Int, isValidSquare row col = true →
      (s.board row col).isWhite ≠ s.isWhiteTurn →
        ¬ ((mouse s row col).selectedRow = row ∧ (mouse s row col).selectedCol = col)) := by
  have hinv := reachable_selection s hs
  refine ⟨hinv, ?_, ?_⟩
  · intro row col hv hmove
    obtain ⟨h2, h4, h5⟩ := mouse_moveCount_ne s row col hmove
    rcases hinv with hnone | ⟨hsv, hty, hcol⟩
    · exact absurd hnone h2
    · have hne : ¬ (row = s.selectedRow ∧ col = s.selectedCol) := fun h => h4 ⟨h.1.symm, h.2.symm⟩
      have hd := (isValidSquare_iff _ _).1 hv
      have h1 : col ≠ -1 ∧ row ≠ -1 := ⟨by omega, by omega⟩
      refine ⟨hty, hcol, ?_, ?_⟩
      · simp [mouse, h1, h2, h4, h5, hne]
      · simp [mouse, h1, h2, h4, h5, hne, hcol]
  · intro row col hv hcol
    have hd := (isValidSquare_iff _ _).1 hv
    unfold mouse
    split_ifs with h1 h2 h3 h4 h5 h6
    · exact absurd h3.2 hcol
    · intro h; omega
    · intro h; simp only at h; omega
    · intro h; simp only at h; omega
    · exact absurd h6.2 hcol
    · exact h4
    · intro h; omega

/-- C2 at a concrete input: with the pawn on `(1, 4)` selected in the initial
position, the selection is a White pawn while White is to move, and the click on
`(3, 4)` moves a White pawn. -/
theorem C2_turn_enforcement_witness :
    Reachable pawnE2Selected ∧
      (isValidSquare pawnE2Selected.selectedRow pawnE2Selected.selectedCol = true ∧
        (pawnE2Selected.board pawnE2Selected.selectedRow pawnE2Selected.selectedCol).type
          ≠ EMPTY ∧
        (pawnE2Selected.board pawnE2Selected.selectedRow pawnE2Selected.selectedCol).isWhite
          = pawnE2Selected.isWhiteTurn) ∧
      ((mouse pawnE2Selected 3 4).board 3 4).isWhite = pawnE2Selected.isWhiteTurn :=
  have hr : Reachable pawnE2Selected := Reachable.click initialState 1 4 Reachable.init (by decide)
  ⟨hr, (C2_turn_enforcement pawnE2Selected hr).1.resolve_left (by decide),
    ((C2_turn_enforcement pawnE2Selected hr).2.1 3 4 (by decide) (by decide)).2.2.2⟩

/-- A click keeps the mask false on the whole board whenever it leaves no selection. -/
theorem mask_invariant_mouse (s : GameState) (row col : Int)
    (h : s.selectedRow = -1 ∧ s.selectedCol = -1 →
      ∀ r c : Int, isValidSquare r c = true → s.legalMoves r c = false) :
    (mouse s row col).selectedRow = -1 ∧ (mouse s row col).selectedCol = -1 →
      ∀ r c : Int, isValidSquare r c = true → (mouse s row col).legalMoves r c = false := by
  unfold mouse
  split_ifs with h1 h2 h3 h4 h5 h6
  · intro hsel; exact absurd hsel.1 h1.2
  · exact h
  · intro _ r c hv
    simp only [calculateLegalMoves_none, clearLegalMoves_apply, if_pos hv]
  · intro _ r c hv
    simp only [calculateLegalMoves_none, clearLegalMoves_apply, if_pos hv]
  · intro hsel; exact absurd hsel.1 h1.2
  · exact h
  · exact h

/-- C3 (mask cleared when idle): in every reachable state with selection
`(-1, -1)`, all 64 entries of `legalMoves` are false. -/
theorem C3_mask_cleared_when_idle (s : GameState) (hs : Reachable s)
    (hidle : s.selectedRow = -1 ∧ s.selectedCol = -1) :
    ∀ r c : Int, isValidSquare r c = true → s.legalMoves r c = false := by
  induction hs with
  | init =>
    intro r c _
    simp [initialState, initializeBoard, idx8]
  | click s row col _ _ ih => exact mask_invariant_mouse s row col ih hidle
  | offBoard s _ ih => exact mask_invariant_mouse s (-1) (-1) ih hidle
  | clear s _ _ =>
    intro r c hv
    simp only [clearSelection, calculateLegalMoves_none, clearLegalMoves_apply, if_pos hv]

/-- C3 at a concrete input: after the pawn move from `(1, 4)` to `(3, 4)` the
state is idle and its mask is false on the whole board. -/
theorem C3_mask_cleared_when_idle_witness :
    Reachable pawnE2Moved ∧ (pawnE2Moved.selectedRow = -1 ∧ pawnE2Moved.selectedCol = -1) ∧
      ∀ r c : Int, isValidSquare r c = true → pawnE2Moved.legalMoves r c = false :=
  have hr : Reachable pawnE2Moved :=
    Reachable.click pawnE2Selected 3 4
      (Reachable.click initialState 1 4 Reachable.init (by decide)) (by decide)
  ⟨hr, by decide, C3_mask_cleared_when_idle pawnE2Moved hr (by decide)⟩

/-- The coordinates that `mouseToBoard` hands to `mouse` are a square of the
board or the pair `(-1, -1)`, so every click leads from a reachable state to a
reachable state. -/
theorem reachable_mouseToBoard (s : GameState) (boardX boardY : Rat) (hs : Reachable s) :
    Reachable (mouse s (mouseToBoard boardX boardY).2 (mouseToBoard boardX boardY).1) := by
  simp only [mouseToBoard]
  split_ifs with h
  · exact Reachable.offBoard s hs
  · exact Reachable.click s (castToInt boardY) (castToInt boardX) hs
      (by rw [isValidSquare_iff]; omega)

/-! ## The sliding loop -/

/-- What the sliding loop has marked when it ends: the cells marked before, and
the squares `(row + j * dr, col + j * dc)` with `i ≤ j < i + n` that are Empty or
hold an enemy, all squares of the ray from step `i` up to them being Empty. -/
theorem slideLoop_apply (board : Board) (row col : Int) (w : Bool) (dr dc : Int) :
    ∀ (n : Nat) (i : Int) (m : Mask) (x y : Int),
      slideLoop board row col w dr dc n i m x y = true ↔
        m x y = true ∨ ∃ j : Int, i ≤ j ∧ j < i + n ∧ x = row + j * dr ∧ y = col + j * dc ∧
          (∀ k : Int, i ≤ k → k < j → isEmpty board (row + k * dr) (col + k * dc) = true) ∧
          (isEmpty board x y = true ∨ isEnemy board x y w = true) := by
  intro n
  induction n with
  | zero =>
    intro i m x y
    simp only [slideLoop, Nat.cast_zero, add_zero]
    constructor
    · exact Or.inl
    · rintro (h | ⟨j, h1, h2, _⟩)
      · exact h
      · omega
  | succ n ih =>
    intro i m x y
    have hsplit : ∀ j : Int, i ≤ j → j = i ∨ i + 1 ≤ j := fun j hj => by omega
    by_cases hval : isValidSquare (row + i * dr) (col + i * dc) = true
    · by_cases hemp : isEmpty board (row + i * dr) (col + i * dc) = true
      · simp only [slideLoop, hval, hemp, Bool.not_true, Bool.false_eq_true, if_false, if_true]
        rw [ih]
        simp only [setLegal_apply]
        constructor
        · rintro (h | ⟨j, h1, h2, h3, h4, h5, h6⟩)
          · by_cases hxy : x = row + i * dr ∧ y = col + i * dc
            · refine Or.inr ⟨i, le_refl _, by push_cast; omega, hxy.1, hxy.2, ?_, ?_⟩
              · intro k hk1 hk2; omega
              · rw [hxy.1, hxy.2]; exact Or.inl hemp
            · rw [if_neg hxy] at h; exact Or.inl h
          · refine Or.inr ⟨j, by omega, by push_cast; omega, h3, h4, ?_, h6⟩
            intro k hk1 hk2
            rcases hsplit k hk1 with rfl | hk
            · exact hemp
            · exact h5 k hk hk2
        · rintro (h | ⟨j, h1, h2, h3, h4, h5, h6⟩)
          · by_cases hxy : x = row + i * dr ∧ y = col + i * dc
            · rw [if_pos hxy]; exact Or.inl rfl
            · rw [if_neg hxy]; exact Or.inl h
          · rcases hsplit j h1 with rfl | hj
            · left; rw [if_pos ⟨h3, h4⟩]
            · right
              exact ⟨j, hj, by push_cast at h2; omega, h3, h4, fun k hk1 hk2 => h5 k (by omega) hk2, h6⟩
      · have hnext : ∀ j : Int, i + 1 ≤ j →
            ¬ (∀ k : Int, i ≤ k → k < j → isEmpty board (row + k * dr) (col + k * dc) = true) :=
          fun j hj h => hemp (h i (le_refl _) (by omega))
        by_cases hen : isEnemy board (row + i * dr) (col + i * dc) w = true
        · simp only [slideLoop, hval, hemp, hen, Bool.not_true, Bool.false_eq_true, if_false,
            if_true, setLegal_apply]
          constructor
          · intro h
            by_cases hxy : x = row + i * dr ∧ y = col + i * dc
            · refine Or.inr ⟨i, le_refl _, by push_cast; omega, hxy.1, hxy.2, ?_, ?_⟩
              · intro k hk1 hk2; omega
              · rw [hxy.1, hxy.2]; exact Or.inr hen
            · rw [if_neg hxy] at h; exact Or.inl h
          · rintro (h | ⟨j, h1, h2, h3, h4, h5, h6⟩)
            · by_cases hxy : x = row + i * dr ∧ y = col + i * dc
              · rw [if_pos hxy]
              · rw [if_neg hxy]; exact h
            · rcases hsplit j h1 with rfl | hj
              · rw [if_pos ⟨h3, h4⟩]
              · exact absurd h5 (hnext j hj)
        · simp only [slideLoop, hval, hemp, hen, Bool.not_true, Bool.false_eq_true, if_false]
          constructor
          · exact Or.inl
          · rintro (h | ⟨j, h1, h2, h3, h4, h5, h6⟩)
            · exact h
            · rcases hsplit j h1 with rfl | hj
              · rw [h3, h4] at h6
                rcases h6 with h6 | h6
                · exact absurd h6 hemp
                · exact absurd h6 hen
              · exact absurd h5 (hnext j hj)
    · have hemp : ¬ isEmpty board (row + i * dr) (col + i * dc) = true :=
        fun h => hval ((isEmpty_iff _ _ _).1 h).1
      have hen : ¬ isEnemy board (row + i * dr) (col + i * dc) w = true :=
        fun h => hval ((isEnemy_iff _ _ _ _).1 h).1
      simp only [slideLoop, hval, Bool.not_false, if_true]
      constructor
      · exact Or.inl
      · rintro (h | ⟨j, h1, h2, h3, h4, h5, h6⟩)
        · exact h
        · rcases hsplit j h1 with rfl | hj
          · rw [h3, h4] at h6
            rcases h6 with h6 | h6
            · exact absurd h6 hemp
            · exact absurd h6 hen
          · exact absurd (h5 i (le_refl _) (by omega)) hemp

theorem slideLoop_rayHit (board : Board) (row col : Int) (w : Bool) (dr dc : Int) (m : Mask)
    (x y : Int) :
    slideLoop board row col w dr dc 7 1 m x y = true ↔
      m x y = true ∨ RayHit board row col w dr dc x y := by
  rw [slideLoop_apply]
  simp only [RayHit, Nat.cast_ofNat, Int.reduceAdd]

theorem calculateRookMoves_apply (board : Board) (m : Mask) (row col : Int) (w : Bool)
    (x y : Int) :
    calculateRookMoves board m row col w x y = true ↔
      m x y = true ∨ RayHit board row col w 0 1 x y ∨ RayHit board row col w 0 (-1) x y ∨
        RayHit board row col w 1 0 x y ∨ RayHit board row col w (-1) 0 x y := by
  simp only [calculateRookMoves, rookDirections, List.foldl_cons, List.foldl_nil,
    slideLoop_rayHit, or_assoc]

theorem calculateBishopMoves_apply (board : Board) (m : Mask) (row col : Int) (w : Bool)
    (x y : Int) :
    calculateBishopMoves board m row col w x y = true ↔
      m x y = true ∨ RayHit board row col w 1 1 x y ∨ RayHit board row col w 1 (-1) x y ∨
        RayHit board row col w (-1) 1 x y ∨ RayHit board row col w (-1) (-1) x y := by
  simp only [calculateBishopMoves, bishopDirections, List.foldl_cons, List.foldl_nil,
    slideLoop_rayHit, or_assoc]

/-- On a square of the board, "Empty or enemy" in terms of the piece on it. -/
theorem isEmpty_or_isEnemy_iff (board : Board) (x y : Int) (w : Bool)
    (hv : isValidSquare x y = true) :
    (isEmpty board x y = true ∨ isEnemy board x y w = true) ↔
      ((board x y).type = EMPTY ∨ ((board x y).type ≠ EMPTY ∧ (board x y).isWhite ≠ w)) := by
  simp [isEmpty_iff, isEnemy_iff, hv]

/-- A ray hit in an orthogonal direction, between two squares of the board, in
terms of the squares between them. -/
theorem rayHit_straight (board : Board) (r c : Int) (w : Bool) (dr dc : Int) (x y : Int)
    (hd : (dr = 0 ∧ (dc = 1 ∨ dc = -1)) ∨ ((dr = 1 ∨ dr = -1) ∧ dc = 0))
    (hv : isValidSquare r c = true) (hv' : isValidSquare x y = true) :
    RayHit board r c w dr dc x y ↔
      (∃ j : Int, 1 ≤ j ∧ x = r + j * dr ∧ y = c + j * dc) ∧
        (∀ x' y' : Int, betweenStraight r c x y x' y' → (board x' y').type = EMPTY) ∧
        ((board x y).type = EMPTY ∨ ((board x y).type ≠ EMPTY ∧ (board x y).isWhite ≠ w)) := by
  rw [← isEmpty_or_isEnemy_iff board x y w hv']
  have hv0 := (isValidSquare_iff _ _).1 hv
  have hv1 := (isValidSquare_iff _ _).1 hv'
  unfold RayHit betweenStraight
  constructor
  · rintro ⟨j, h1, h2, h3, h4, h5, h6⟩
    refine ⟨⟨j, h1, h3, h4⟩, ?_, h6⟩
    intro x' y' hb
    have hk1 : 1 ≤ (x' - r) * dr + (y' - c) * dc := by
      rcases hd with ⟨rfl, rfl | rfl⟩ | ⟨rfl | rfl, rfl⟩ <;> omega
    have hk2 : (x' - r) * dr + (y' - c) * dc < j := by
      rcases hd with ⟨rfl, rfl | rfl⟩ | ⟨rfl | rfl, rfl⟩ <;> omega
    have e1 : r + ((x' - r) * dr + (y' - c) * dc) * dr = x' := by
      rcases hd with ⟨rfl, rfl | rfl⟩ | ⟨rfl | rfl, rfl⟩ <;> omega
    have e2 : c + ((x' - r) * dr + (y' - c) * dc) * dc = y' := by
      rcases hd with ⟨rfl, rfl | rfl⟩ | ⟨rfl | rfl, rfl⟩ <;> omega
    have hk := (isEmpty_iff _ _ _).1 (h5 _ hk1 hk2)
    rw [e1, e2] at hk
    exact hk.2
  · rintro ⟨⟨j, h1, h3, h4⟩, h5, h6⟩
    refine ⟨j, h1, ?_, h3, h4, ?_, h6⟩
    · rcases hd with ⟨rfl, rfl | rfl⟩ | ⟨rfl | rfl, rfl⟩ <;> omega
    · intro k hk1 hk2
      rw [isEmpty_iff, isValidSquare_iff]
      refine ⟨?_, h5 _ _ ?_⟩
      · rcases hd with ⟨rfl, rfl | rfl⟩ | ⟨rfl | rfl, rfl⟩ <;> omega
      · rcases hd with ⟨rfl, rfl | rfl⟩ | ⟨rfl | rfl, rfl⟩ <;> omega

/-- The squares on the four orthogonal rays from `(r, c)`. -/
theorem straight_iff (r c x y : Int) :
    ((∃ j : Int, 1 ≤ j ∧ x = r + j * 0 ∧ y = c + j * 1) ∨
      (∃ j : Int, 1 ≤ j ∧ x = r + j * 0 ∧ y = c + j * (-1)) ∨
      (∃ j : Int, 1 ≤ j ∧ x = r + j * 1 ∧ y = c + j * 0) ∨
      (∃ j : Int, 1 ≤ j ∧ x = r + j * (-1) ∧ y = c + j * 0)) ↔
      (¬ (x = r ∧ y = c) ∧ (x = r ∨ y = c)) := by
  constructor
  · rintro (⟨j, h1, h2, h3⟩ | ⟨j, h1, h2, h3⟩ | ⟨j, h1, h2, h3⟩ | ⟨j, h1, h2, h3⟩) <;>
      exact ⟨fun h => by omega, by omega⟩
  · rintro ⟨h1, h2⟩
    by_cases hy : c < y
    · exact Or.inl ⟨y - c, by omega, by omega, by omega⟩
    · by_cases hy' : y < c
      · exact Or.inr (Or.inl ⟨c - y, by omega, by omega, by omega⟩)
      · by_cases hx : r < x
        · exact Or.inr (Or.inr (Or.inl ⟨x - r, by omega, by omega, by omega⟩))
        · exact Or.inr (Or.inr (Or.inr ⟨r - x, by omega, by omega, by omega⟩))

/-- The mask that `calculateRookMoves` adds to a mask `m`, on the squares of the
board, in terms of the position. -/
theorem calculateRookMoves_iff (board : Board) (m : Mask) (r c : Int) (w : Bool) (x y : Int)
    (hv : isValidSquare r c = true) (hv' : isValidSquare x y = true) :
    calculateRookMoves board m r c w x y = true ↔
      m x y = true ∨
        (¬ (x = r ∧ y = c) ∧ (x = r ∨ y = c) ∧
          (∀ x' y' : Int, betweenStraight r c x y x' y' → (board x' y').type = EMPTY) ∧
          ((board x y).type = EMPTY ∨
            ((board x y).type ≠ EMPTY ∧ (board x y).isWhite ≠ w))) := by
  rw [calculateRookMoves_apply,
    rayHit_straight board r c w 0 1 x y (Or.inl ⟨rfl, Or.inl rfl⟩) hv hv',
    rayHit_straight board r c w 0 (-1) x y (Or.inl ⟨rfl, Or.inr rfl⟩) hv hv',
    rayHit_straight board r c w 1 0 x y (Or.inr ⟨Or.inl rfl, rfl⟩) hv hv',
    rayHit_straight board r c w (-1) 0 x y (Or.inr ⟨Or.inr rfl, rfl⟩) hv hv',
    ← or_and_right, ← or_and_right, ← or_and_right, straight_iff, and_assoc]

theorem calculateLegalMoves_rook (board : Board) (m : Mask) (r c : Int)
    (hv : isValidSquare r c = true) (h : (board r c).type = ROOK) :
    calculateLegalMoves board m r c =
      calculateRookMoves board (clearLegalMoves m) r c (board r c).isWhite := by
  have hv0 := (isValidSquare_iff _ _).1 hv
  have hr : r ≠ -1 := by omega
  have hc : c ≠ -1 := by omega
  simp [calculateLegalMoves, hr, hc, h]

/-- C4 (rook rule): for a rook of colour `k` on an in-bounds square `(r, c)`,
`calculateLegalMoves` marks an in-bounds square `(r', c')` iff it differs from
`(r, c)`, lies on the same row or column, every square strictly between is Empty,
and it is Empty or holds a piece of the other colour.  In particular, on each of
the four rays the first occupied square is marked iff it holds an enemy, and no
square beyond it is marked. -/
theorem C4_rook_rule (board : Board) (legalMoves : Mask) (r c : Int) (k : Bool)
    (hv : isValidSquare r c = true) (hrook : (board r c).type = ROOK)
    (hk : (board r c).isWhite = k) :
    (∀ r' c' : Int, isValidSquare r' c' = true →
      (calculateLegalMoves board legalMoves r c r' c' = true ↔
        ¬ (r' = r ∧ c' = c) ∧ (r' = r ∨ c' = c) ∧
          (∀ x y : Int, betweenStraight r c r' c' x y → (board x y).type = EMPTY) ∧
          ((board r' c').type = EMPTY ∨
            ((board r' c').type ≠ EMPTY ∧ (board r' c').isWhite ≠ k)))) ∧
    (∀ dr dc : Int, (dr, dc) ∈ rookDirections → ∀ n : Int, 1 ≤ n →
      isValidSquare (r + n * dr) (c + n * dc) = true →
      (board (r + n * dr) (c + n * dc)).type ≠ EMPTY →
      (∀ j : Int, 1 ≤ j → j < n → (board (r + j * dr) (c + j * dc)).type = EMPTY) →
        (calculateLegalMoves board legalMoves r c (r + n * dr) (c + n * dc) = true ↔
          (board (r + n * dr) (c + n * dc)).isWhite ≠ k) ∧
        (∀ j : Int, n < j → isValidSquare (r + j * dr) (c + j * dc) = true →
          calculateLegalMoves board legalMoves r c (r + j * dr) (c + j * dc) = false)) := by
  have hmain : ∀ r' c' : Int, isValidSquare r' c' = true →
      (calculateLegalMoves board legalMoves r c r' c' = true ↔
        ¬ (r' = r ∧ c' = c) ∧ (r' = r ∨ c' = c) ∧
          (∀ x y : Int, betweenStraight r c r' c' x y → (board x y).type = EMPTY) ∧
          ((board r' c').type = EMPTY ∨
            ((board r' c').type ≠ EMPTY ∧ (board r' c').isWhite ≠ k))) := by
    intro r' c' hv'
    rw [calculateLegalMoves_rook board legalMoves r c hv hrook,
      calculateRookMoves_iff board _ r c _ r' c' hv hv', clearLegalMoves_apply, if_pos hv', hk]
    simp
  refine ⟨hmain, ?_⟩
  intro dr dc hd n hn hvn hocc hfree
  have hd' : (dr = 0 ∧ (dc = 1 ∨ dc = -1)) ∨ ((dr = 1 ∨ dr = -1) ∧ dc = 0) := by
    simp only [rookDirections, List.mem_cons, Prod.mk.injEq, List.mem_nil_iff, or_false] at hd
    omega
  constructor
  · rw [hmain _ _ hvn]
    constructor
    · rintro ⟨_, _, _, h | h⟩
      · exact absurd h hocc
      · exact h.2
    · intro hcol
      refine ⟨?_, ?_, ?_, Or.inr ⟨hocc, hcol⟩⟩
      · rcases hd' with ⟨rfl, rfl | rfl⟩ | ⟨rfl | rfl, rfl⟩ <;> omega
      · rcases hd' with ⟨rfl, rfl | rfl⟩ | ⟨rfl | rfl, rfl⟩ <;> omega
      · intro x y hb
        unfold betweenStraight at hb
        have e1 : r + ((x - r) * dr + (y - c) * dc) * dr = x := by
          rcases hd' with ⟨rfl, rfl | rfl⟩ | ⟨rfl | rfl, rfl⟩ <;> omega
        have e2 : c + ((x - r) * dr + (y - c) * dc) * dc = y := by
          rcases hd' with ⟨rfl, rfl | rfl⟩ | ⟨rfl | rfl, rfl⟩ <;> omega
        have h := hfree ((x - r) * dr + (y - c) * dc)
          (by rcases hd' with ⟨rfl, rfl | rfl⟩ | ⟨rfl | rfl, rfl⟩ <;> omega)
          (by rcases hd' with ⟨rfl, rfl | rfl⟩ | ⟨rfl | rfl, rfl⟩ <;> omega)
        rw [e1, e2] at h
        exact h
  · intro j hj hvj
    rw [← Bool.not_eq_true, hmain _ _ hvj]
    rintro ⟨_, _, hbetween, _⟩
    refine hocc (hbetween _ _ ?_)
    unfold betweenStraight
    rcases hd' with ⟨rfl, rfl | rfl⟩ | ⟨rfl | rfl, rfl⟩ <;> omega

/-- Scenario 6 of the specification, on the row of the rook: the mask is true on
`(3, 1)`, `(3, 2)`, `(3, 4)`, `(3, 5)`, `(3, 6)` and false on `(3, 0)`, `(3, 7)`. -/
theorem rookScenario_row :
    calculateLegalMoves rookScenario (fun _ _ => false) 3 3 3 0 = false ∧
      calculateLegalMoves rookScenario (fun _ _ => false) 3 3 3 1 = true ∧
      calculateLegalMoves rookScenario (fun _ _ => false) 3 3 3 2 = true ∧
      calculateLegalMoves rookScenario (fun _ _ => false) 3 3 3 4 = true ∧
      calculateLegalMoves rookScenario (fun _ _ => false) 3 3 3 5 = true ∧
      calculateLegalMoves rookScenario (fun _ _ => false) 3 3 3 6 = true ∧
      calculateLegalMoves rookScenario (fun _ _ => false) 3 3 3 7 = false := by
  decide

/-- C4 at a concrete input: in scenario 6 of the specification the rook on
`(3, 3)` has `(3, 6)`, the first occupied square to the east, marked, and `(3, 7)`
beyond it is not marked. -/
theorem C4_rook_rule_witness :
    (isValidSquare 3 3 = true ∧ (rookScenario 3 3).type = ROOK ∧
      (rookScenario 3 3).isWhite = true) ∧
    (calculateLegalMoves rookScenario (fun _ _ => true) 3 3 3 6 = true ↔
      (rookScenario 3 6).isWhite ≠ true) ∧
    calculateLegalMoves rookScenario (fun _ _ => true) 3 3 3 7 = false :=
  have h := (C4_rook_rule rookScenario (fun _ _ => true) 3 3 true (by decide) (by decide)
    (by decide)).2 0 1 (by decide) 3 (by decide) (by decide) (by decide)
    (by intro j h1 h2
        have : j = 1 ∨ j = 2 := by omega
        rcases this with rfl | rfl <;> decide)
  ⟨⟨by decide, by decide, by decide⟩, h.1, h.2 4 (by decide) (by decide)⟩

/-! ## The bishop -/

/-- A ray hit in a diagonal direction, between two squares of the board, in terms
of the squares between them. -/
theorem rayHit_diagonal (board : Board) (r c : Int) (w : Bool) (dr dc : Int) (x y : Int)
    (hd : (dr = 1 ∨ dr = -1) ∧ (dc = 1 ∨ dc = -1))
    (hv : isValidSquare r c = true) (hv' : isValidSquare x y = true) :
    RayHit board r c w dr dc x y ↔
      (∃ j : Int, 1 ≤ j ∧ x = r + j * dr ∧ y = c + j * dc) ∧
        (∀ x' y' : Int, betweenDiagonal r c x y x' y' → (board x' y').type = EMPTY) ∧
        ((board x y).type = EMPTY ∨ ((board x y).type ≠ EMPTY ∧ (board x y).isWhite ≠ w)) := by
  rw [← isEmpty_or_isEnemy_iff board x y w hv']
  have hv0 := (isValidSquare_iff _ _).1 hv
  have hv1 := (isValidSquare_iff _ _).1 hv'
  unfold RayHit betweenDiagonal
  constructor
  · rintro ⟨j, h1, h2, h3, h4, h5, h6⟩
    refine ⟨⟨j, h1, h3, h4⟩, ?_, h6⟩
    intro x' y' hb
    have hk1 : 1 ≤ (x' - r) * dr := by
      rcases hd with ⟨rfl | rfl, rfl | rfl⟩ <;> omega
    have hk2 : (x' - r) * dr < j := by
      rcases hd with ⟨rfl | rfl, rfl | rfl⟩ <;> omega
    have e1 : r + ((x' - r) * dr) * dr = x' := by
      rcases hd with ⟨rfl | rfl, rfl | rfl⟩ <;> omega
    have e2 : c + ((x' - r) * dr) * dc = y' := by
      rcases hd with ⟨rfl | rfl, rfl | rfl⟩ <;> omega
    have hk := (isEmpty_iff _ _ _).1 (h5 _ hk1 hk2)
    rw [e1, e2] at hk
    exact hk.2
  · rintro ⟨⟨j, h1, h3, h4⟩, h5, h6⟩
    refine ⟨j, h1, ?_, h3, h4, ?_, h6⟩
    · rcases hd with ⟨rfl | rfl, rfl | rfl⟩ <;> omega
    · intro k hk1 hk2
      rw [isEmpty_iff, isValidSquare_iff]
      refine ⟨?_, h5 _ _ ?_⟩
      · rcases hd with ⟨rfl | rfl, rfl | rfl⟩ <;> omega
      · rcases hd with ⟨rfl | rfl, rfl | rfl⟩ <;> omega

/-- The squares on the four diagonal rays from `(r, c)`. -/
theorem diagonal_iff (r c x y : Int) :
    ((∃ j : Int, 1 ≤ j ∧ x = r + j * 1 ∧ y = c + j * 1) ∨
      (∃ j : Int, 1 ≤ j ∧ x = r + j * 1 ∧ y = c + j * (-1)) ∨
      (∃ j : Int, 1 ≤ j ∧ x = r + j * (-1) ∧ y = c + j * 1) ∨
      (∃ j : Int, 1 ≤ j ∧ x = r + j * (-1) ∧ y = c + j * (-1))) ↔
      (¬ (x = r ∧ y = c) ∧ |x - r| = |y - c|) := by
  rw [abs_eq_abs]
  constructor
  · rintro (⟨j, h1, h2, h3⟩ | ⟨j, h1, h2, h3⟩ | ⟨j, h1, h2, h3⟩ | ⟨j, h1, h2, h3⟩) <;>
      exact ⟨fun h => by omega, by omega⟩
  · rintro ⟨h1, h2⟩
    by_cases hx : r < x
    · by_cases hy : c < y
      · exact Or.inl ⟨x - r, by omega, by omega, by omega⟩
      · exact Or.inr (Or.inl ⟨x - r, by omega, by omega, by omega⟩)
    · by_cases hy : c < y
      · exact Or.inr (Or.inr (Or.inl ⟨r - x, by omega, by omega, by omega⟩))
      · exact Or.inr (Or.inr (Or.inr ⟨r - x, by omega, by omega, by omega⟩))

/-- The mask that `calculateBishopMoves` adds to a mask `m`, on the squares of
the board, in terms of the position. -/
theorem calculateBishopMoves_iff (board : Board) (m : Mask) (r c : Int) (w : Bool) (x y : Int)
    (hv : isValidSquare r c = true) (hv' : isValidSquare x y = true) :
    calculateBishopMoves board m r c w x y = true ↔
      m x y = true ∨
        (¬ (x = r ∧ y = c) ∧ |x - r| = |y - c| ∧
          (∀ x' y' : Int, betweenDiagonal r c x y x' y' → (board x' y').type = EMPTY) ∧
          ((board x y).type = EMPTY ∨
            ((board x y).type ≠ EMPTY ∧ (board x y).isWhite ≠ w))) := by
  rw [calculateBishopMoves_apply,
    rayHit_diagonal board r c w 1 1 x y ⟨Or.inl rfl, Or.inl rfl⟩ hv hv',
    rayHit_diagonal board r c w 1 (-1) x y ⟨Or.inl rfl, Or.inr rfl⟩ hv hv',
    rayHit_diagonal board r c w (-1) 1 x y ⟨Or.inr rfl, Or.inl rfl⟩ hv hv',
    rayHit_diagonal board r c w (-1) (-1) x y ⟨Or.inr rfl, Or.inr rfl⟩ hv hv',
    ← or_and_right, ← or_and_right, ← or_and_right, diagonal_iff, and_assoc]

theorem calculateLegalMoves_bishop (board : Board) (m : Mask) (r c : Int)
    (hv : isValidSquare r c = true) (h : (board r c).type = BISHOP) :
    calculateLegalMoves board m r c =
      calculateBishopMoves board (clearLegalMoves m) r c (board r c).isWhite := by
  have hv0 := (isValidSquare_iff _ _).1 hv
  have hr : r ≠ -1 := by omega
  have hc : c ≠ -1 := by omega
  simp [calculateLegalMoves, hr, hc, h]

/-- C5 (bishop rule): for a bishop of colour `k` on an in-bounds square `(r, c)`,
`calculateLegalMoves` marks an in-bounds square `(r', c')` iff it differs from
`(r, c)`, lies on a diagonal through `(r, c)`, every square strictly between them
on that diagonal is Empty, and it is Empty or holds a piece of the other colour. -/
theorem C5_bishop_rule (board : Board) (legalMoves : Mask) (r c : Int) (k : Bool)
    (hv : isValidSquare r c = true) (hbishop : (board r c).type = BISHOP)
    (hk : (board r c).isWhite = k) (r' c' : Int) (hv' : isValidSquare r' c' = true) :
    calculateLegalMoves board legalMoves r c r' c' = true ↔
      ¬ (r' = r ∧ c' = c) ∧ |r' - r| = |c' - c| ∧
        (∀ x y : Int, betweenDiagonal r c r' c' x y → (board x y).type = EMPTY) ∧
        ((board r' c').type = EMPTY ∨
          ((board r' c').type ≠ EMPTY ∧ (board r' c').isWhite ≠ k)) := by
  rw [calculateLegalMoves_bishop board legalMoves r c hv hbishop,
    calculateBishopMoves_iff board _ r c _ r' c' hv hv', clearLegalMoves_apply, if_pos hv', hk]
  simp

/-- C5 at a concrete input: the bishop on `(2, 2)` of `bishopScenario` and the
square `(5, 5)` behind the Black pawn on `(4, 4)`. -/
theorem C5_bishop_rule_witness :
    (isValidSquare 2 2 = true ∧ (bishopScenario 2 2).type = BISHOP ∧
      (bishopScenario 2 2).isWhite = true ∧ isValidSquare 5 5 = true) ∧
    (calculateLegalMoves bishopScenario (fun _ _ => true) 2 2 5 5 = true ↔
      ¬ ((5 : Int) = 2 ∧ (5 : Int) = 2) ∧ |(5 : Int) - 2| = |(5 : Int) - 2| ∧
        (∀ x y : Int, betweenDiagonal 2 2 5 5 x y → (bishopScenario x y).type = EMPTY) ∧
        ((bishopScenario 5 5).type = EMPTY ∨
          ((bishopScenario 5 5).type ≠ EMPTY ∧ (bishopScenario 5 5).isWhite ≠ true))) :=
  ⟨⟨by decide, by decide, by decide, by decide⟩,
    C5_bishop_rule bishopScenario (fun _ _ => true) 2 2 true (by decide) (by decide) (by decide)
      5 5 (by decide)⟩

/-! ## The queen -/

/-- A ray never reads the square it starts from: two boards that agree on every
other square give the same ray hits. -/
theorem rayHit_congr (board board' : Board) (r c : Int) (w : Bool) (dr dc : Int) (x y : Int)
    (hd : (dr = -1 ∨ dr = 0 ∨ dr = 1) ∧ (dc = -1 ∨ dc = 0 ∨ dc = 1) ∧ ¬ (dr = 0 ∧ dc = 0))
    (h : ∀ x y : Int, ¬ (x = r ∧ y = c) → board' x y = board x y) :
    RayHit board' r c w dr dc x y ↔ RayHit board r c w dr dc x y := by
  have hoff : ∀ k : Int, 1 ≤ k → ¬ (r + k * dr = r ∧ c + k * dc = c) := by
    intro k hk
    rcases hd with ⟨rfl | rfl | rfl, rfl | rfl | rfl, h0⟩ <;> omega
  unfold RayHit
  constructor
  · rintro ⟨j, h1, h2, h3, h4, h5, h6⟩
    refine ⟨j, h1, h2, h3, h4, ?_, ?_⟩
    · intro k hk1 hk2
      have := h5 k hk1 hk2
      simpa only [isEmpty, h _ _ (hoff k hk1)] using this
    · have hxy : ¬ (x = r ∧ y = c) := by rw [h3, h4]; exact hoff j h1
      simpa only [isEmpty, isEnemy, h _ _ hxy] using h6
  · rintro ⟨j, h1, h2, h3, h4, h5, h6⟩
    refine ⟨j, h1, h2, h3, h4, ?_, ?_⟩
    · intro k hk1 hk2
      have := h5 k hk1 hk2
      simpa only [isEmpty, h _ _ (hoff k hk1)] using this
    · have hxy : ¬ (x = r ∧ y = c) := by rw [h3, h4]; exact hoff j h1
      simpa only [isEmpty, isEnemy, h _ _ hxy] using h6

theorem calculateLegalMoves_queen (board : Board) (m : Mask) (r c : Int)
    (hv : isValidSquare r c = true) (h : (board r c).type = QUEEN) :
    calculateLegalMoves board m r c =
      calculateQueenMoves board (clearLegalMoves m) r c (board r c).isWhite := by
  have hv0 := (isValidSquare_iff _ _).1 hv
  have hr : r ≠ -1 := by omega
  have hc : c ≠ -1 := by omega
  simp [calculateLegalMoves, hr, hc, h]

theorem setPiece_off (board : Board) (r c : Int) (p : Piece) :
    ∀ x y : Int, ¬ (x = r ∧ y = c) → setPiece board r c p x y = board x y := by
  intro x y hxy
  rw [setPiece_apply, if_neg hxy]

/-- C6 (the queen rule is the union of the rook rule and the bishop rule): for a
queen of colour `k` on an in-bounds square `(r, c)`, the mask of
`calculateLegalMoves` is, on every square of the board, the OR of the mask for a
rook of colour `k` and the mask for a bishop of colour `k` put on `(r, c)` in its
place, whatever the masks were before. -/
theorem C6_queen_is_rook_or_bishop (board : Board) (m mR mB : Mask) (r c : Int) (k : Bool)
    (movedR movedB : Bool)
    (hv : isValidSquare r c = true) (hqueen : (board r c).type = QUEEN)
    (hk : (board r c).isWhite = k) (r' c' : Int) (hv' : isValidSquare r' c' = true) :
    calculateLegalMoves board m r c r' c' =
      (calculateLegalMoves (setPiece board r c ⟨ROOK, k, movedR⟩) mR r c r' c' ||
        calculateLegalMoves (setPiece board r c ⟨BISHOP, k, movedB⟩) mB r c r' c') := by
  have hR : (setPiece board r c ⟨ROOK, k, movedR⟩ r c) = ⟨ROOK, k, movedR⟩ := by simp
  have hB : (setPiece board r c ⟨BISHOP, k, movedB⟩ r c) = ⟨BISHOP, k, movedB⟩ := by simp
  rw [Bool.eq_iff_iff, Bool.or_eq_true,
    calculateLegalMoves_queen board m r c hv hqueen,
    calculateLegalMoves_rook _ mR r c hv (by rw [hR]),
    calculateLegalMoves_bishop _ mB r c hv (by rw [hB]), hR, hB, hk]
  simp only [calculateQueenMoves, calculateBishopMoves_apply, calculateRookMoves_apply,
    clearLegalMoves_apply, if_pos hv', Bool.false_eq_true, false_or]
  rw [rayHit_congr board _ r c k 0 1 r' c' (by omega) (setPiece_off board r c _),
    rayHit_congr board _ r c k 0 (-1) r' c' (by omega) (setPiece_off board r c _),
    rayHit_congr board _ r c k 1 0 r' c' (by omega) (setPiece_off board r c _),
    rayHit_congr board _ r c k (-1) 0 r' c' (by omega) (setPiece_off board r c _),
    rayHit_congr board _ r c k 1 1 r' c' (by omega) (setPiece_off board r c _),
    rayHit_congr board _ r c k 1 (-1) r' c' (by omega) (setPiece_off board r c _),
    rayHit_congr board _ r c k (-1) 1 r' c' (by omega) (setPiece_off board r c _),
    rayHit_congr board _ r c k (-1) (-1) r' c' (by omega) (setPiece_off board r c _)]

/-- C6 at a concrete input: the queen on `(3, 3)` of `queenScenario` and the
square `(5, 5)`. -/
theorem C6_queen_is_rook_or_bishop_witness :
    (isValidSquare 3 3 = true ∧ (queenScenario 3 3).type = QUEEN ∧
      (queenScenario 3 3).isWhite = true ∧ isValidSquare 5 5 = true) ∧
    calculateLegalMoves queenScenario (fun _ _ => false) 3 3 5 5 =
      (calculateLegalMoves (setPiece queenScenario 3 3 ⟨ROOK, true, false⟩)
          (fun _ _ => true) 3 3 5 5 ||
        calculateLegalMoves (setPiece queenScenario 3 3 ⟨BISHOP, true, false⟩)
          (fun _ _ => true) 3 3 5 5) :=
  ⟨⟨by decide, by decide, by decide, by decide⟩,
    C6_queen_is_rook_or_bishop queenScenario (fun _ _ => false) (fun _ _ => true)
      (fun _ _ => true) 3 3 true false false (by decide) (by decide) (by decide) 5 5 (by decide)⟩

/-! ## The pawn -/

/-- A guarded marking of one cell. -/
theorem ite_setLegal_apply (cond : Prop) [Decidable cond] (m : Mask) (a b x y : Int) :
    (if cond then setLegal m a b true else m) x y = true ↔
      m x y = true ∨ (cond ∧ x = a ∧ y = b) := by
  by_cases h : cond
  · rw [if_pos h, setLegal_apply]
    by_cases hxy : x = a ∧ y = b
    · simp [hxy, h]
    · simp [hxy]
  · rw [if_neg h]
    simp [h]

/-- What `calculatePawnMoves` marks, cell by cell. -/
theorem calculatePawnMoves_apply (board : Board) (m : Mask) (r c : Int) (w : Bool) (x y : Int) :
    calculatePawnMoves board m r c w x y = true ↔
      m x y = true ∨
        (x = r + direction w ∧ y = c ∧ isEmpty board (r + direction w) c = true) ∨
        (x = r + direction w + direction w ∧ y = c ∧ isEmpty board (r + direction w) c = true ∧
          r = startRow w ∧ isEmpty board (r + direction w + direction w) c = true) ∨
        (x = r + direction w ∧ y = c - 1 ∧ isEnemy board (r + direction w) (c - 1) w = true) ∨
        (x = r + direction w ∧ y = c + 1 ∧ isEnemy board (r + direction w) (c + 1) w = true) := by
  unfold calculatePawnMoves
  by_cases h1 : isEmpty board (r + direction w) c = true
  · simp only [h1, if_true, ite_setLegal_apply, setLegal_apply]
    by_cases hxy : x = r + direction w ∧ y = c
    · simp [hxy]
    · simp only [if_neg hxy]
      tauto
  · simp only [h1, if_false, ite_setLegal_apply, Bool.false_eq_true]
    tauto

theorem calculateLegalMoves_pawn (board : Board) (m : Mask) (r c : Int)
    (hv : isValidSquare r c = true) (h : (board r c).type = PAWN) :
    calculateLegalMoves board m r c =
      calculatePawnMoves board (clearLegalMoves m) r c (board r c).isWhite := by
  have hv0 := (isValidSquare_iff _ _).1 hv
  have hr : r ≠ -1 := by omega
  have hc : c ≠ -1 := by omega
  simp [calculateLegalMoves, hr, hc, h]

/-- C7 (pawn rule): the direction is `+1` and the start row `1` for White, `-1`
and `6` for Black; for a pawn of colour `k` on an in-bounds square `(r, c)`,
`calculateLegalMoves` marks an in-bounds square iff it is the square one step
ahead and Empty, or the square two steps ahead with the pawn on its start row and
both squares ahead Empty, or one of the two squares diagonally ahead holding a
piece of the other colour.  In particular the square two steps ahead is never
marked for a pawn that is not on its start row. -/
theorem C7_pawn_rule (board : Board) (legalMoves : Mask) (r c : Int) (k : Bool)
    (hv : isValidSquare r c = true) (hpawn : (board r c).type = PAWN)
    (hk : (board r c).isWhite = k) :
    (direction true = 1 ∧ startRow true = 1 ∧ direction false = -1 ∧ startRow false = 6) ∧
    (∀ r' c' : Int, isValidSquare r' c' = true →
      (calculateLegalMoves board legalMoves r c r' c' = true ↔
        (r' = r + direction k ∧ c' = c ∧ (board r' c').type = EMPTY) ∨
        (r' = r + 2 * direction k ∧ c' = c ∧ r = startRow k ∧
          (board (r + direction k) c).type = EMPTY ∧
          (board (r + 2 * direction k) c).type = EMPTY) ∨
        (r' = r + direction k ∧ (c' = c - 1 ∨ c' = c + 1) ∧
          (board r' c').type ≠ EMPTY ∧ (board r' c').isWhite ≠ k))) ∧
    (r ≠ startRow k → isValidSquare (r + 2 * direction k) c = true →
      calculateLegalMoves board legalMoves r c (r + 2 * direction k) c = false) := by
  have e : r + 2 * direction k = r + direction k + direction k := by ring
  have hd : direction k = 1 ∨ direction k = -1 := by cases k <;> simp [direction]
  have hmain : ∀ r' c' : Int, isValidSquare r' c' = true →
      (calculateLegalMoves board legalMoves r c r' c' = true ↔
        (r' = r + direction k ∧ c' = c ∧ (board r' c').type = EMPTY) ∨
        (r' = r + 2 * direction k ∧ c' = c ∧ r = startRow k ∧
          (board (r + direction k) c).type = EMPTY ∧
          (board (r + 2 * direction k) c).type = EMPTY) ∨
        (r' = r + direction k ∧ (c' = c - 1 ∨ c' = c + 1) ∧
          (board r' c').type ≠ EMPTY ∧ (board r' c').isWhite ≠ k)) := by
    intro r' c' hv'
    have hv1 := (isValidSquare_iff _ _).1 hv
    have hv2 := (isValidSquare_iff _ _).1 hv'
    rw [calculateLegalMoves_pawn board legalMoves r c hv hpawn, calculatePawnMoves_apply,
      clearLegalMoves_apply, if_pos hv', hk, e]
    simp only [Bool.false_eq_true, false_or, isEmpty_iff, isEnemy_iff]
    constructor
    · rintro (⟨rfl, rfl, _, h⟩ | ⟨rfl, rfl, ⟨_, h1⟩, h2, _, h3⟩ | ⟨rfl, rfl, _, h⟩ | ⟨rfl, rfl, _, h⟩)
      · exact Or.inl ⟨rfl, rfl, h⟩
      · exact Or.inr (Or.inl ⟨rfl, rfl, h2, h1, h3⟩)
      · exact Or.inr (Or.inr ⟨rfl, Or.inl rfl, h⟩)
      · exact Or.inr (Or.inr ⟨rfl, Or.inr rfl, h⟩)
    · rintro (⟨rfl, rfl, h⟩ | ⟨rfl, rfl, h1, h2, h3⟩ | ⟨rfl, rfl | rfl, h⟩)
      · exact Or.inl ⟨rfl, rfl, hv', h⟩
      · refine Or.inr (Or.inl ⟨rfl, rfl, ⟨?_, h2⟩, h1, hv', h3⟩)
        rw [isValidSquare_iff]; omega
      · exact Or.inr (Or.inr (Or.inl ⟨rfl, rfl, hv', h⟩))
      · exact Or.inr (Or.inr (Or.inr ⟨rfl, rfl, hv', h⟩))
  refine ⟨⟨rfl, rfl, rfl, rfl⟩, hmain, ?_⟩
  intro hstart hv2
  rw [← Bool.not_eq_true, hmain _ _ hv2]
  rintro (⟨h, _⟩ | ⟨_, _, h, _⟩ | ⟨h, _⟩)
  · omega
  · exact hstart h
  · omega

/-- C7 at a concrete input: on the initial board the pawn on `(1, 4)` has the
square `(3, 4)` two steps ahead marked. -/
theorem C7_pawn_rule_witness :
    (isValidSquare 1 4 = true ∧ (initialState.board 1 4).type = PAWN ∧
      (initialState.board 1 4).isWhite = true) ∧
    calculateLegalMoves initialState.board (fun _ _ => true) 1 4 3 4 = true :=
  ⟨⟨by decide, by decide, by decide⟩,
    ((C7_pawn_rule initialState.board (fun _ _ => true) 1 4 true (by decide) (by decide)
      (by decide)).2.1 3 4 (by decide)).2
      (Or.inr (Or.inl ⟨by decide, rfl, by decide, by decide, by decide⟩))⟩

/-! ## The knight and the king -/

/-- The loop body shared by `calculateKnightMoves` and `calculateKingMoves`, run
over a list of offsets: what is marked at the end. -/
theorem foldl_offsets_apply (board : Board) (r c : Int) (w : Bool) (offsets : List (Int × Int)) :
    ∀ (m : Mask) (x y : Int),
      (offsets.foldl (fun m k =>
        if (isValidSquare (r + k.1) (c + k.2) &&
            (isEmpty board (r + k.1) (c + k.2) || isEnemy board (r + k.1) (c + k.2) w)) = true
        then setLegal m (r + k.1) (c + k.2) true else m) m) x y = true ↔
      m x y = true ∨ ((∃ k ∈ offsets, x = r + k.1 ∧ y = c + k.2) ∧ isValidSquare x y = true ∧
        (isEmpty board x y = true ∨ isEnemy board x y w = true)) := by
  induction offsets with
  | nil => intro m x y; simp
  | cons k rest ih =>
    intro m x y
    rw [List.foldl_cons, ih, ite_setLegal_apply]
    simp only [List.mem_cons, exists_eq_or_imp, Bool.and_eq_true, Bool.or_eq_true]
    constructor
    · rintro ((h | ⟨⟨h1, h2⟩, rfl, rfl⟩) | ⟨h1, h2⟩)
      · exact Or.inl h
      · exact Or.inr ⟨Or.inl ⟨rfl, rfl⟩, h1, h2⟩
      · exact Or.inr ⟨Or.inr h1, h2⟩
    · rintro (h | ⟨⟨rfl, rfl⟩ | h1, h2⟩)
      · exact Or.inl (Or.inl h)
      · exact Or.inl (Or.inr ⟨h2, rfl, rfl⟩)
      · exact Or.inr ⟨h1, h2⟩

theorem calculateKnightMoves_apply (board : Board) (m : Mask) (r c : Int) (w : Bool)
    (x y : Int) :
    calculateKnightMoves board m r c w x y = true ↔
      m x y = true ∨ ((∃ k ∈ knightMoves, x = r + k.1 ∧ y = c + k.2) ∧
        isValidSquare x y = true ∧ (isEmpty board x y = true ∨ isEnemy board x y w = true)) :=
  foldl_offsets_apply board r c w knightMoves m x y

/-- The eight offsets that the double loop of `calculateKingMoves` visits, in the
order of the loop. -/
theorem calculateKingMoves_eq (board : Board) (m : Mask) (r c : Int) (w : Bool) :
    calculateKingMoves board m r c w =
      [((-1 : Int), (-1 : Int)), (-1, 0), (-1, 1), (0, -1), (0, 1), (1, -1), (1, 0), (1, 1)].foldl
        (fun m k =>
          if (isValidSquare (r + k.1) (c + k.2) &&
              (isEmpty board (r + k.1) (c + k.2) || isEnemy board (r + k.1) (c + k.2) w)) = true
          then setLegal m (r + k.1) (c + k.2) true else m) m := rfl

theorem calculateKingMoves_apply (board : Board) (m : Mask) (r c : Int) (w : Bool)
    (x y : Int) :
    calculateKingMoves board m r c w x y = true ↔
      m x y = true ∨
        ((∃ k ∈ [((-1 : Int), (-1 : Int)), (-1, 0), (-1, 1), (0, -1), (0, 1), (1, -1), (1, 0),
            (1, 1)], x = r + k.1 ∧ y = c + k.2) ∧
        isValidSquare x y = true ∧ (isEmpty board x y = true ∨ isEnemy board x y w = true)) := by
  rw [calculateKingMoves_eq]
  exact foldl_offsets_apply board r c w _ m x y

/-- The knight's squares in terms of distances. -/
theorem knight_iff (r c x y : Int) :
    (∃ k ∈ knightMoves, x = r + k.1 ∧ y = c + k.2) ↔
      ((|x - r| = 1 ∧ |y - c| = 2) ∨ (|x - r| = 2 ∧ |y - c| = 1)) := by
  have h1 : ∀ a : Int, |a| = 1 ↔ a = 1 ∨ a = -1 := fun a => abs_eq (by norm_num)
  have h2 : ∀ a : Int, |a| = 2 ↔ a = 2 ∨ a = -2 := fun a => abs_eq (by norm_num)
  simp only [knightMoves, List.mem_cons, List.mem_nil_iff, or_false, exists_eq_or_imp,
    exists_eq_left, h1, h2]
  omega

/-- The king's squares in terms of distances. -/
theorem king_iff (r c x y : Int) :
    (∃ k ∈ [((-1 : Int), (-1 : Int)), (-1, 0), (-1, 1), (0, -1), (0, 1), (1, -1), (1, 0),
        (1, 1)], x = r + k.1 ∧ y = c + k.2) ↔
      (¬ (x = r ∧ y = c) ∧ |x - r| ≤ 1 ∧ |y - c| ≤ 1) := by
  simp only [List.mem_cons, List.mem_nil_iff, or_false, exists_eq_or_imp, exists_eq_left, abs_le]
  omega

/-- On a square of the board, "Empty or enemy" is "not occupied by a friend". -/
theorem isEmpty_or_isEnemy_iff_not_friend (board : Board) (x y : Int) (w : Bool)
    (hv : isValidSquare x y = true) :
    (isEmpty board x y = true ∨ isEnemy board x y w = true) ↔
      ¬ ((board x y).type ≠ EMPTY ∧ (board x y).isWhite = w) := by
  rw [isEmpty_or_isEnemy_iff board x y w hv]
  by_cases h : (board x y).type = EMPTY <;> simp [h]

theorem calculateLegalMoves_knight (board : Board) (m : Mask) (r c : Int)
    (hv : isValidSquare r c = true) (h : (board r c).type = KNIGHT) :
    calculateLegalMoves board m r c =
      calculateKnightMoves board (clearLegalMoves m) r c (board r c).isWhite := by
  have hv0 := (isValidSquare_iff _ _).1 hv
  have hr : r ≠ -1 := by omega
  have hc : c ≠ -1 := by omega
  simp [calculateLegalMoves, hr, hc, h]

theorem calculateLegalMoves_king (board : Board) (m : Mask) (r c : Int)
    (hv : isValidSquare r c = true) (h : (board r c).type = KING) :
    calculateLegalMoves board m r c =
      calculateKingMoves board (clearLegalMoves m) r c (board r c).isWhite := by
  have hv0 := (isValidSquare_iff _ _).1 hv
  have hr : r ≠ -1 := by omega
  have hc : c ≠ -1 := by omega
  simp [calculateLegalMoves, hr, hc, h]

/-- C8 (knight rule): for a knight of colour `k` on an in-bounds square `(r, c)`,
`calculateLegalMoves` marks an in-bounds square `(r', c')` iff
`(|r' - r|, |c' - c|)` is `(1, 2)` or `(2, 1)` and the square is not occupied by a
piece of colour `k`.  On the initial board the knight on `(0, 1)` gets exactly
`(2, 0)` and `(2, 2)`. -/
theorem C8_knight_rule (board : Board) (legalMoves : Mask) (r c : Int) (k : Bool)
    (hv : isValidSquare r c = true) (hknight : (board r c).type = KNIGHT)
    (hk : (board r c).isWhite = k) :
    (∀ r' c' : Int, isValidSquare r' c' = true →
      (calculateLegalMoves board legalMoves r c r' c' = true ↔
        ((|r' - r| = 1 ∧ |c' - c| = 2) ∨ (|r' - r| = 2 ∧ |c' - c| = 1)) ∧
          ¬ ((board r' c').type ≠ EMPTY ∧ (board r' c').isWhite = k))) ∧
    ((initialState.board 0 1).type = KNIGHT ∧
      ∀ r' c' : Int, isValidSquare r' c' = true →
        (calculateLegalMoves initialState.board initialState.legalMoves 0 1 r' c' = true ↔
          (r' = 2 ∧ c' = 0) ∨ (r' = 2 ∧ c' = 2))) := by
  refine ⟨?_, by decide, ?_⟩
  · intro r' c' hv'
    rw [calculateLegalMoves_knight board legalMoves r c hv hknight, calculateKnightMoves_apply,
      clearLegalMoves_apply, if_pos hv', hk, knight_iff,
      isEmpty_or_isEnemy_iff_not_friend board r' c' k hv']
    simp [hv']
  · intro r' c' hv'
    rw [isValidSquare_iff] at hv'
    have hr : r' = 0 ∨ r' = 1 ∨ r' = 2 ∨ r' = 3 ∨ r' = 4 ∨ r' = 5 ∨ r' = 6 ∨ r' = 7 := by omega
    have hc : c' = 0 ∨ c' = 1 ∨ c' = 2 ∨ c' = 3 ∨ c' = 4 ∨ c' = 5 ∨ c' = 6 ∨ c' = 7 := by omega
    rcases hr with rfl | rfl | rfl | rfl | rfl | rfl | rfl | rfl <;>
      rcases hc with rfl | rfl | rfl | rfl | rfl | rfl | rfl | rfl <;> decide

/-- C8 at a concrete input: after the pawn move from `(1, 4)` to `(3, 4)` the
knight on `(0, 6)` has the vacated square `(1, 4)` marked. -/
theorem C8_knight_rule_witness :
    (isValidSquare 0 6 = true ∧ (pawnE2Moved.board 0 6).type = KNIGHT ∧
      (pawnE2Moved.board 0 6).isWhite = true) ∧
    calculateLegalMoves pawnE2Moved.board (fun _ _ => true) 0 6 1 4 = true :=
  ⟨⟨by decide, by decide, by decide⟩,
    ((C8_knight_rule pawnE2Moved.board (fun _ _ => true) 0 6 true (by decide) (by decide)
      (by decide)).1 1 4 (by decide)).2 ⟨Or.inl ⟨by simp, by simp⟩, by decide⟩⟩

/-- C9 (king rule): for a king of colour `k` on an in-bounds square `(r, c)`,
`calculateLegalMoves` marks an in-bounds square `(r', c')` iff it differs from
`(r, c)`, is at most one row and one column away, and is not occupied by a piece
of colour `k`; and the mask is the same on every board that has a king of colour
`k` on `(r, c)` and the same pieces on those of the eight neighbours of `(r, c)`
that are on the board. -/
theorem C9_king_rule (board : Board) (legalMoves : Mask) (r c : Int) (k : Bool)
    (hv : isValidSquare r c = true) (hking : (board r c).type = KING)
    (hk : (board r c).isWhite = k) :
    (∀ r' c' : Int, isValidSquare r' c' = true →
      (calculateLegalMoves board legalMoves r c r' c' = true ↔
        ¬ (r' = r ∧ c' = c) ∧ |r' - r| ≤ 1 ∧ |c' - c| ≤ 1 ∧
          ¬ ((board r' c').type ≠ EMPTY ∧ (board r' c').isWhite = k))) ∧
    (∀ board' : Board, (board' r c).type = KING → (board' r c).isWhite = k →
      (∀ x y : Int, isValidSquare x y = true → ¬ (x = r ∧ y = c) → |x - r| ≤ 1 → |y - c| ≤ 1 →
        board' x y = board x y) →
      ∀ r' c' : Int,
        calculateLegalMoves board' legalMoves r c r' c' =
          calculateLegalMoves board legalMoves r c r' c') := by
  constructor
  · intro r' c' hv'
    rw [calculateLegalMoves_king board legalMoves r c hv hking, calculateKingMoves_apply,
      clearLegalMoves_apply, if_pos hv', hk, king_iff,
      isEmpty_or_isEnemy_iff_not_friend board r' c' k hv']
    simp [hv', and_assoc]
  · intro board' hking' hk' hagree r' c'
    rw [Bool.eq_iff_iff, calculateLegalMoves_king board legalMoves r c hv hking,
      calculateLegalMoves_king board' legalMoves r c hv hking', calculateKingMoves_apply,
      calculateKingMoves_apply, hk, hk', king_iff]
    refine or_congr Iff.rfl (and_congr_right fun hg => and_congr_right fun hv' => ?_)
    obtain ⟨h1, h2, h3⟩ := hg
    simp only [isEmpty, isEnemy, hagree r' c' hv' h1 h2 h3]

/-- C9 at a concrete input: after the pawn move from `(1, 4)` to `(3, 4)` the
White king on `(0, 4)` has the vacated square `(1, 4)` marked. -/
theorem C9_king_rule_witness :
    (isValidSquare 0 4 = true ∧ (pawnE2Moved.board 0 4).type = KING ∧
      (pawnE2Moved.board 0 4).isWhite = true) ∧
    calculateLegalMoves pawnE2Moved.board (fun _ _ => true) 0 4 1 4 = true :=
  ⟨⟨by decide, by decide, by decide⟩,
    ((C9_king_rule pawnE2Moved.board (fun _ _ => true) 0 4 true (by decide) (by decide)
      (by decide)).1 1 4 (by decide)).2 ⟨by decide, by simp, by simp, by decide⟩⟩

/-! ## All kinds: no move onto an own piece -/

/-- A ray hit is a square other than the origin that is Empty or holds an enemy. -/
theorem rayHit_target (board : Board) (r c : Int) (w : Bool) (dr dc : Int) (x y : Int)
    (hd : (dr = -1 ∨ dr = 0 ∨ dr = 1) ∧ (dc = -1 ∨ dc = 0 ∨ dc = 1) ∧ ¬ (dr = 0 ∧ dc = 0))
    (h : RayHit board r c w dr dc x y) :
    ¬ (x = r ∧ y = c) ∧ (isEmpty board x y = true ∨ isEnemy board x y w = true) := by
  obtain ⟨j, h1, _, h3, h4, _, h6⟩ := h
  refine ⟨?_, h6⟩
  rcases hd with ⟨rfl | rfl | rfl, rfl | rfl | rfl, h0⟩ <;> omega

theorem calculateRookMoves_marks (board : Board) (m : Mask) (r c : Int) (w : Bool) (x y : Int)
    (h : calculateRookMoves board m r c w x y = true) :
    m x y = true ∨
      (¬ (x = r ∧ y = c) ∧ (isEmpty board x y = true ∨ isEnemy board x y w = true)) := by
  rw [calculateRookMoves_apply] at h
  rcases h with h | h | h | h | h
  · exact Or.inl h
  all_goals exact Or.inr (rayHit_target board r c w _ _ x y (by omega) h)

theorem calculateBishopMoves_marks (board : Board) (m : Mask) (r c : Int) (w : Bool) (x y : Int)
    (h : calculateBishopMoves board m r c w x y = true) :
    m x y = true ∨
      (¬ (x = r ∧ y = c) ∧ (isEmpty board x y = true ∨ isEnemy board x y w = true)) := by
  rw [calculateBishopMoves_apply] at h
  rcases h with h | h | h | h | h
  · exact Or.inl h
  all_goals exact Or.inr (rayHit_target board r c w _ _ x y (by omega) h)

theorem calculatePawnMoves_marks (board : Board) (m : Mask) (r c : Int) (w : Bool) (x y : Int)
    (h : calculatePawnMoves board m r c w x y = true) :
    m x y = true ∨
      (¬ (x = r ∧ y = c) ∧ (isEmpty board x y = true ∨ isEnemy board x y w = true)) := by
  have hd : direction w = 1 ∨ direction w = -1 := by cases w <;> simp [direction]
  rw [calculatePawnMoves_apply] at h
  rcases h with h | ⟨rfl, rfl, h⟩ | ⟨rfl, rfl, _, _, h⟩ | ⟨rfl, rfl, h⟩ | ⟨rfl, rfl, h⟩
  · exact Or.inl h
  · exact Or.inr ⟨fun h0 => by omega, Or.inl h⟩
  · exact Or.inr ⟨fun h0 => by omega, Or.inl h⟩
  · exact Or.inr ⟨fun h0 => by omega, Or.inr h⟩
  · exact Or.inr ⟨fun h0 => by omega, Or.inr h⟩

theorem calculateKnightMoves_marks (board : Board) (m : Mask) (r c : Int) (w : Bool) (x y : Int)
    (h : calculateKnightMoves board m r c w x y = true) :
    m x y = true ∨
      (¬ (x = r ∧ y = c) ∧ (isEmpty board x y = true ∨ isEnemy board x y w = true)) := by
  rw [calculateKnightMoves_apply] at h
  rcases h with h | ⟨hg, _, h⟩
  · exact Or.inl h
  · refine Or.inr ⟨?_, h⟩
    simp only [knightMoves, List.mem_cons, List.mem_nil_iff, or_false, exists_eq_or_imp,
      exists_eq_left] at hg
    omega

theorem calculateKingMoves_marks (board : Board) (m : Mask) (r c : Int) (w : Bool) (x y : Int)
    (h : calculateKingMoves board m r c w x y = true) :
    m x y = true ∨
      (¬ (x = r ∧ y = c) ∧ (isEmpty board x y = true ∨ isEnemy board x y w = true)) := by
  rw [calculateKingMoves_apply, king_iff] at h
  rcases h with h | ⟨hg, _, h⟩
  · exact Or.inl h
  · exact Or.inr ⟨hg.1, h⟩

theorem calculateLegalMoves_empty (board : Board) (m : Mask) (r c : Int)
    (h : (board r c).type = EMPTY) :
    calculateLegalMoves board m r c = clearLegalMoves m := by
  simp [calculateLegalMoves, h]

/-- Every cell that is true after `calculateLegalMoves` is true after the
clearing loop alone, or is a square other than the origin that is Empty or holds
an enemy of the piece on the origin. -/
theorem calculateLegalMoves_marks (board : Board) (m : Mask) (r c : Int) (x y : Int)
    (hv : isValidSquare r c = true)
    (h : calculateLegalMoves board m r c x y = true) :
    clearLegalMoves m x y = true ∨
      (¬ (x = r ∧ y = c) ∧
        (isEmpty board x y = true ∨ isEnemy board x y (board r c).isWhite = true)) := by
  rcases hty : (board r c).type with _ | _ | _ | _ | _ | _ | _
  · rw [calculateLegalMoves_pawn board m r c hv hty] at h
    exact calculatePawnMoves_marks board _ r c _ x y h
  · rw [calculateLegalMoves_rook board m r c hv hty] at h
    exact calculateRookMoves_marks board _ r c _ x y h
  · rw [calculateLegalMoves_knight board m r c hv hty] at h
    exact calculateKnightMoves_marks board _ r c _ x y h
  · rw [calculateLegalMoves_bishop board m r c hv hty] at h
    exact calculateBishopMoves_marks board _ r c _ x y h
  · rw [calculateLegalMoves_queen board m r c hv hty] at h
    rcases calculateBishopMoves_marks board _ r c _ x y h with h | h
    · exact calculateRookMoves_marks board _ r c _ x y h
    · exact Or.inr h
  · rw [calculateLegalMoves_king board m r c hv hty] at h
    exact calculateKingMoves_marks board _ r c _ x y h
  · rw [calculateLegalMoves_empty board m r c hty] at h
    exact Or.inl h

/-- The generators only set cells: a cell that is true after the clearing loop
stays true. -/
theorem calculateLegalMoves_mono (board : Board) (m : Mask) (r c : Int) (x y : Int)
    (hv : isValidSquare r c = true)
    (h : clearLegalMoves m x y = true) : calculateLegalMoves board m r c x y = true := by
  rcases hty : (board r c).type with _ | _ | _ | _ | _ | _ | _
  · rw [calculateLegalMoves_pawn board m r c hv hty]
    exact (calculatePawnMoves_apply ..).2 (Or.inl h)
  · rw [calculateLegalMoves_rook board m r c hv hty]
    exact (calculateRookMoves_apply ..).2 (Or.inl h)
  · rw [calculateLegalMoves_knight board m r c hv hty]
    exact (calculateKnightMoves_apply ..).2 (Or.inl h)
  · rw [calculateLegalMoves_bishop board m r c hv hty]
    exact (calculateBishopMoves_apply ..).2 (Or.inl h)
  · rw [calculateLegalMoves_queen board m r c hv hty]
    exact (calculateBishopMoves_apply ..).2 (Or.inl ((calculateRookMoves_apply ..).2 (Or.inl h)))
  · rw [calculateLegalMoves_king board m r c hv hty]
    exact (calculateKingMoves_apply ..).2 (Or.inl h)
  · rw [calculateLegalMoves_empty board m r c hty]
    exact h

/-- C10 (no move onto an own piece): for a piece of colour `k` of any kind on an
in-bounds square (the statement holds for an Empty origin as well, whose mask is
all false), `calculateLegalMoves` changes no cell outside the 8 x 8 array, and
every square of the board that it leaves marked differs from the origin and is
Empty or occupied by a piece of the other colour. -/
theorem C10_no_move_onto_own_piece (board : Board) (legalMoves : Mask) (r c : Int) (k : Bool)
    (hv : isValidSquare r c = true) (hk : (board r c).isWhite = k) :
    (∀ r' c' : Int, isValidSquare r' c' = false →
      calculateLegalMoves board legalMoves r c r' c' = legalMoves r' c') ∧
    (∀ r' c' : Int, isValidSquare r' c' = true →
      calculateLegalMoves board legalMoves r c r' c' = true →
        ¬ (r' = r ∧ c' = c) ∧
          ((board r' c').type = EMPTY ∨
            ((board r' c').type ≠ EMPTY ∧ (board r' c').isWhite ≠ k))) := by
  constructor
  · intro r' c' hv'
    have hclear : clearLegalMoves legalMoves r' c' = legalMoves r' c' := by
      rw [clearLegalMoves_apply, hv']; simp
    rw [Bool.eq_iff_iff]
    constructor
    · intro h
      rcases calculateLegalMoves_marks board legalMoves r c r' c' hv h with h | ⟨_, h | h⟩
      · rw [← hclear]; exact h
      · rw [isEmpty_iff, hv'] at h; exact absurd h.1 (by simp)
      · rw [isEnemy_iff, hv'] at h; exact absurd h.1 (by simp)
    · intro h
      exact calculateLegalMoves_mono board legalMoves r c r' c' hv (by rw [hclear]; exact h)
  · intro r' c' hv' h
    rcases calculateLegalMoves_marks board legalMoves r c r' c' hv h with h | ⟨h1, h2⟩
    · rw [clearLegalMoves_apply, if_pos hv'] at h; exact absurd h (by simp)
    · rw [hk, isEmpty_or_isEnemy_iff board r' c' k hv'] at h2
      exact ⟨h1, h2⟩

/-- C10 at a concrete input: the queen on `(3, 3)` of `queenScenario` has the
square `(3, 6)` marked, which holds a Black pawn. -/
theorem C10_no_move_onto_own_piece_witness :
    (isValidSquare 3 3 = true ∧ (queenScenario 3 3).type ≠ EMPTY ∧
      (queenScenario 3 3).isWhite = true ∧ isValidSquare 3 6 = true ∧
      calculateLegalMoves queenScenario (fun _ _ => false) 3 3 3 6 = true) ∧
    (¬ ((3 : Int) = 3 ∧ (6 : Int) = 3) ∧
      ((queenScenario 3 6).type = EMPTY ∨
        ((queenScenario 3 6).type ≠ EMPTY ∧ (queenScenario 3 6).isWhite ≠ true))) :=
  ⟨⟨by decide, by decide, by decide, by decide, by decide⟩,
    (C10_no_move_onto_own_piece queenScenario (fun _ _ => false) 3 3 true (by decide)
      (by decide)).2 3 6 (by decide) (by decide)⟩

/-! ## The initial position -/

/-- A loop over `idx8` runs its body for `0, 1, ..., 7` in this order. -/
theorem foldl_idx8 {σ : Type} (f : σ → Int → σ) (s : σ) :
    idx8.foldl f s = f (f (f (f (f (f (f (f s 0) 1) 2) 3) 4) 5) 6) 7 := rfl

/-- A loop `for (col = 0; col < 8; col++) board[R][col] = f(col)` fills row `R`. -/
theorem foldl_setPiece_row (f : Int → Piece) (R : Int) (b : Board) (r c : Int) :
    (idx8.foldl (fun b col => setPiece b R col (f col)) b) r c =
      if r = R ∧ 0 ≤ c ∧ c < 8 then f c else b r c := by
  rw [foldl_idx8]
  simp only [setPiece_apply]
  by_cases hr : r = R
  · by_cases hc : 0 ≤ c ∧ c < 8
    · have hc' : c = 0 ∨ c = 1 ∨ c = 2 ∨ c = 3 ∨ c = 4 ∨ c = 5 ∨ c = 6 ∨ c = 7 := by omega
      rcases hc' with rfl | rfl | rfl | rfl | rfl | rfl | rfl | rfl <;> simp [hr]
    · have h0 : c ≠ 0 := by omega
      have h1 : c ≠ 1 := by omega
      have h2 : c ≠ 2 := by omega
      have h3 : c ≠ 3 := by omega
      have h4 : c ≠ 4 := by omega
      have h5 : c ≠ 5 := by omega
      have h6 : c ≠ 6 := by omega
      have h7 : c ≠ 7 := by omega
      simp [h0, h1, h2, h3, h4, h5, h6, h7, hc]
  · simp [hr]

/-- A loop that updates the two components of a pair independently. -/
theorem foldl_pair {α β γ : Type} (f : α → γ → α) (g : β → γ → β) (l : List γ) :
    ∀ s : α × β, l.foldl (fun s x => (f s.1 x, g s.2 x)) s = (l.foldl f s.1, l.foldl g s.2) := by
  induction l with
  | nil => intro s; rfl
  | cons x rest ih => intro s; simp only [List.foldl_cons, ih]

/-- The clearing double loop of `initializeBoard` works on the two arrays
independently. -/
theorem initializeBoard_cleared (board : Board) (legalMoves : Mask) :
    idx8.foldl (fun s row =>
      idx8.foldl (fun s col => (setPiece s.1 row col Piece.default, setLegal s.2 row col false)) s)
      (board, legalMoves) =
    (idx8.foldl (fun b row => idx8.foldl (fun b col => setPiece b row col Piece.default) b) board,
      clearLegalMoves legalMoves) := by
  have inner : ∀ (row : Int) (s : Board × Mask),
      idx8.foldl (fun s col => (setPiece s.1 row col Piece.default, setLegal s.2 row col false)) s =
        (idx8.foldl (fun b col => setPiece b row col Piece.default) s.1,
          idx8.foldl (fun m col => setLegal m row col false) s.2) :=
    fun row s => foldl_pair (fun b col => setPiece b row col Piece.default)
      (fun m col => setLegal m row col false) idx8 s
  simp only [inner]
  exact foldl_pair (fun b row => idx8.foldl (fun b col => setPiece b row col Piece.default) b)
    (fun m row => idx8.foldl (fun m col => setLegal m row col false) m) idx8 (board, legalMoves)

/-- The board after `initializeBoard`, square by square. -/
theorem initializeBoard_board (board : Board) (legalMoves : Mask) (r c : Int) :
    (initializeBoard board legalMoves).1 r c =
      if 0 ≤ c ∧ c < 8 then
        (if r = 7 then ⟨backRank c, false, false⟩
        else if r = 6 then ⟨PAWN, false, false⟩
        else if r = 1 then ⟨PAWN, true, false⟩
        else if r = 0 then ⟨backRank c, true, false⟩
        else if 0 ≤ r ∧ r < 8 then ⟨EMPTY, true, false⟩
        else board r c)
      else board r c := by
  unfold initializeBoard
  simp only [initializeBoard_cleared]
  rw [foldl_setPiece_row, foldl_setPiece_row, foldl_setPiece_row, foldl_setPiece_row,
    foldl_idx8]
  simp only [foldl_setPiece_row, Piece.new, Piece.default]
  by_cases hc : 0 ≤ c ∧ c < 8
  · simp only [hc, and_true, and_self, if_true]
    split_ifs <;> first | rfl | omega
  · simp only [hc, and_false, if_false]

/-- The mask after `initializeBoard`: the 64 cells of the array are false. -/
theorem initializeBoard_mask (board : Board) (legalMoves : Mask) (r c : Int) :
    (initializeBoard board legalMoves).2 r c =
      if isValidSquare r c = true then false else legalMoves r c := by
  unfold initializeBoard
  simp only [initializeBoard_cleared]
  exact clearLegalMoves_apply legalMoves r c

/-- C11 (initial position): whatever the two arrays held before,
`initializeBoard` leaves White rook, knight, bishop, queen, king, bishop, knight,
rook on row 0, White pawns on row 1, Black pawns on row 6, the same Black pieces
on row 7, the default Empty piece on every square of rows 2 to 5, every piece
with `hasMoved = false`, and every entry of the mask false. -/
theorem C11_initial_position (board : Board) (legalMoves : Mask) :
    ((initializeBoard board legalMoves).1 0 0 = ⟨ROOK, true, false⟩ ∧
      (initializeBoard board legalMoves).1 0 1 = ⟨KNIGHT, true, false⟩ ∧
      (initializeBoard board legalMoves).1 0 2 = ⟨BISHOP, true, false⟩ ∧
      (initializeBoard board legalMoves).1 0 3 = ⟨QUEEN, true, false⟩ ∧
      (initializeBoard board legalMoves).1 0 4 = ⟨KING, true, false⟩ ∧
      (initializeBoard board legalMoves).1 0 5 = ⟨BISHOP, true, false⟩ ∧
      (initializeBoard board legalMoves).1 0 6 = ⟨KNIGHT, true, false⟩ ∧
      (initializeBoard board legalMoves).1 0 7 = ⟨ROOK, true, false⟩) ∧
    ((initializeBoard board legalMoves).1 7 0 = ⟨ROOK, false, false⟩ ∧
      (initializeBoard board legalMoves).1 7 1 = ⟨KNIGHT, false, false⟩ ∧
      (initializeBoard board legalMoves).1 7 2 = ⟨BISHOP, false, false⟩ ∧
      (initializeBoard board legalMoves).1 7 3 = ⟨QUEEN, false, false⟩ ∧
      (initializeBoard board legalMoves).1 7 4 = ⟨KING, false, false⟩ ∧
      (initializeBoard board legalMoves).1 7 5 = ⟨BISHOP, false, false⟩ ∧
      (initializeBoard board legalMoves).1 7 6 = ⟨KNIGHT, false, false⟩ ∧
      (initializeBoard board legalMoves).1 7 7 = ⟨ROOK, false, false⟩) ∧
    (∀ r c : Int, isValidSquare r c = true →
      (r = 1 → (initializeBoard board legalMoves).1 r c = ⟨PAWN, true, false⟩) ∧
      (r = 6 → (initializeBoard board legalMoves).1 r c = ⟨PAWN, false, false⟩) ∧
      (2 ≤ r ∧ r ≤ 5 → (initializeBoard board legalMoves).1 r c = ⟨EMPTY, true, false⟩) ∧
      ((initializeBoard board legalMoves).1 r c).hasMoved = false ∧
      (initializeBoard board legalMoves).2 r c = false) := by
  refine ⟨?_, ?_, ?_⟩
  · simp [initializeBoard_board, backRank]
  · simp [initializeBoard_board, backRank]
  · intro r c hv
    have hv' := (isValidSquare_iff _ _).1 hv
    have hc : 0 ≤ c ∧ c < 8 := ⟨hv'.2.2.1, hv'.2.2.2⟩
    rw [initializeBoard_board, initializeBoard_mask, if_pos hv, if_pos hc]
    refine ⟨?_, ?_, ?_, ?_, rfl⟩
    · rintro rfl; simp
    · rintro rfl; simp
    · intro h
      rw [if_neg (by omega), if_neg (by omega), if_neg (by omega), if_neg (by omega),
        if_pos (by omega)]
    · split_ifs <;> first | rfl | omega

/-- C11 at a concrete input: the squares `(1, 3)` and `(4, 3)` after
`initializeBoard` on the statically initialised arrays. -/
theorem C11_initial_position_witness :
    isValidSquare 1 3 = true ∧ isValidSquare 4 3 = true ∧
      (initializeBoard (fun _ _ => Piece.default) (fun _ _ => false)).1 1 3
        = ⟨PAWN, true, false⟩ ∧
      (initializeBoard (fun _ _ => Piece.default) (fun _ _ => false)).1 4 3
        = ⟨EMPTY, true, false⟩ ∧
      (initializeBoard (fun _ _ => Piece.default) (fun _ _ => false)).2 4 3 = false :=
  ⟨by decide, by decide,
    ((C11_initial_position (fun _ _ => Piece.default) (fun _ _ => false)).2.2 1 3 (by decide)).1 rfl,
    ((C11_initial_position (fun _ _ => Piece.default) (fun _ _ => false)).2.2 4 3
      (by decide)).2.2.1 (by decide),
    ((C11_initial_position (fun _ _ => Piece.default) (fun _ _ => false)).2.2 4 3
      (by decide)).2.2.2.2⟩

/-! ## The mask does not depend on its previous contents -/

/-- Outside the 8 x 8 array `calculateLegalMoves` changes nothing. -/
theorem calculateLegalMoves_outside (board : Board) (m : Mask) (r c : Int) (x y : Int)
    (hv : isValidSquare r c = true) (hxy : isValidSquare x y = false) :
    calculateLegalMoves board m r c x y = m x y := by
  have hclear : clearLegalMoves m x y = m x y := by
    rw [clearLegalMoves_apply, hxy]; simp
  rw [Bool.eq_iff_iff]
  constructor
  · intro h
    rcases calculateLegalMoves_marks board m r c x y hv h with h | ⟨_, h | h⟩
    · rw [← hclear]; exact h
    · rw [isEmpty_iff, hxy] at h; exact absurd h.1 (by simp)
    · rw [isEnemy_iff, hxy] at h; exact absurd h.1 (by simp)
  · intro h
    exact calculateLegalMoves_mono board m r c x y hv (by rw [hclear]; exact h)

/-- On the squares of the board the mask computed by `calculateLegalMoves` for an
in-bounds origin is the same for any two previous contents of `legalMoves`. -/
theorem calculateLegalMoves_prior (board : Board) (m m' : Mask) (r c : Int) (x y : Int)
    (hv : isValidSquare r c = true) (hxy : isValidSquare x y = true) :
    calculateLegalMoves board m r c x y = calculateLegalMoves board m' r c x y := by
  rw [Bool.eq_iff_iff]
  rcases hty : (board r c).type with _ | _ | _ | _ | _ | _ | _
  · simp only [calculateLegalMoves_pawn board _ r c hv hty, calculatePawnMoves_apply,
      clearLegalMoves_apply, if_pos hxy]
  · simp only [calculateLegalMoves_rook board _ r c hv hty, calculateRookMoves_apply,
      clearLegalMoves_apply, if_pos hxy]
  · simp only [calculateLegalMoves_knight board _ r c hv hty, calculateKnightMoves_apply,
      clearLegalMoves_apply, if_pos hxy]
  · simp only [calculateLegalMoves_bishop board _ r c hv hty, calculateBishopMoves_apply,
      clearLegalMoves_apply, if_pos hxy]
  · simp only [calculateLegalMoves_queen board _ r c hv hty, calculateQueenMoves,
      calculateBishopMoves_apply, calculateRookMoves_apply, clearLegalMoves_apply, if_pos hxy]
  · simp only [calculateLegalMoves_king board _ r c hv hty, calculateKingMoves_apply,
      clearLegalMoves_apply, if_pos hxy]
  · simp only [calculateLegalMoves_empty board _ r c hty, clearLegalMoves_apply, if_pos hxy]

/-! ## The transitions of the click handler -/

/-- The two selecting branches of `mouse` have the same effect. -/
theorem mouse_select (s : GameState) (row col : Int)
    (hv : isValidSquare row col = true)
    (hsel : (s.selectedRow = -1 ∧ s.selectedCol = -1) ∨
      (¬ (s.selectedRow = row ∧ s.selectedCol = col) ∧ s.legalMoves row col = false))
    (hocc : (s.board row col).type ≠ EMPTY)
    (hcol : (s.board row col).isWhite = s.isWhiteTurn) :
    mouse s row col =
      { s with
        selectedRow := row
        selectedCol := col
        legalMoves := calculateLegalMoves s.board s.legalMoves row col } := by
  have hd := (isValidSquare_iff _ _).1 hv
  have h1 : col ≠ -1 ∧ row ≠ -1 := ⟨by omega, by omega⟩
  by_cases hidle : s.selectedRow = -1 ∧ s.selectedCol = -1
  · simp only [mouse, if_pos h1, if_pos hidle, if_pos (And.intro hocc hcol)]
  · rcases hsel with h | ⟨hne, hlegal⟩
    · exact absurd h hidle
    · have hl : ¬ (s.legalMoves row col = true) := by rw [hlegal]; simp
      simp only [mouse, if_pos h1, if_neg hidle, if_neg hne, if_neg hl,
        if_pos (And.intro hocc hcol)]

/-- The two branches of `mouse` without effect. -/
theorem mouse_noop (s : GameState) (row col : Int)
    (hsel : (s.selectedRow = -1 ∧ s.selectedCol = -1) ∨
      (¬ (s.selectedRow = row ∧ s.selectedCol = col) ∧ s.legalMoves row col = false))
    (hfree : ¬ ((s.board row col).type ≠ EMPTY ∧ (s.board row col).isWhite = s.isWhiteTurn)) :
    mouse s row col = s := by
  by_cases h1 : col ≠ -1 ∧ row ≠ -1
  · by_cases hidle : s.selectedRow = -1 ∧ s.selectedCol = -1
    · simp only [mouse, if_pos h1, if_pos hidle, if_neg hfree]
    · rcases hsel with h | ⟨hne, hlegal⟩
      · exact absurd h hidle
      · have hl : ¬ (s.legalMoves row col = true) := by rw [hlegal]; simp
        simp only [mouse, if_pos h1, if_neg hidle, if_neg hne, if_neg hl, if_neg hfree]
  · simp only [mouse, if_neg h1]

/-- The deselecting branch of `mouse`. -/
theorem mouse_deselect (s : GameState) (hsel : isValidSquare s.selectedRow s.selectedCol = true) :
    mouse s s.selectedRow s.selectedCol = clearSelection s := by
  have hd := (isValidSquare_iff _ _).1 hsel
  have h1 : s.selectedCol ≠ -1 ∧ s.selectedRow ≠ -1 := ⟨by omega, by omega⟩
  have h2 : ¬ (s.selectedRow = -1 ∧ s.selectedCol = -1) := fun h => by omega
  simp only [mouse, if_pos h1, if_neg h2, and_self, if_true, clearSelection]

/-- C12 (selection): with no selection, a click on an in-bounds square holding a
non-Empty piece of the side to move makes that square the selection and makes the
mask the result of `calculateLegalMoves` for it on the current board (on the
squares of the board the same for any previous mask), leaving board, turn and
counter alone.  On the initial state the click on `(1, 4)` gives a mask that is
true on `(2, 4)` and `(3, 4)` and false elsewhere. -/
theorem C12_selection (s : GameState) (row col : Int)
    (hidle : s.selectedRow = -1 ∧ s.selectedCol = -1)
    (hv : isValidSquare row col = true)
    (hocc : (s.board row col).type ≠ EMPTY)
    (hcol : (s.board row col).isWhite = s.isWhiteTurn) :
    ((mouse s row col).selectedRow = row ∧ (mouse s row col).selectedCol = col ∧
      (mouse s row col).legalMoves = calculateLegalMoves s.board s.legalMoves row col ∧
      (∀ (m : Mask) (r c : Int), isValidSquare r c = true →
        (mouse s row col).legalMoves r c = calculateLegalMoves s.board m row col r c) ∧
      (mouse s row col).board = s.board ∧
      (mouse s row col).isWhiteTurn = s.isWhiteTurn ∧
      (mouse s row col).moveCount = s.moveCount) ∧
    ((mouse initialState 1 4).selectedRow = 1 ∧ (mouse initialState 1 4).selectedCol = 4 ∧
      ∀ r c : Int, isValidSquare r c = true →
        ((mouse initialState 1 4).legalMoves r c = true ↔ (r = 2 ∧ c = 4) ∨ (r = 3 ∧ c = 4))) := by
  refine ⟨?_, by decide, by decide, ?_⟩
  · rw [mouse_select s row col hv (Or.inl hidle) hocc hcol]
    refine ⟨rfl, rfl, rfl, ?_, rfl, rfl, rfl⟩
    intro m r c hrc
    exact calculateLegalMoves_prior s.board s.legalMoves m row col r c hv hrc
  · intro r c hv'
    rw [isValidSquare_iff] at hv'
    have hr : r = 0 ∨ r = 1 ∨ r = 2 ∨ r = 3 ∨ r = 4 ∨ r = 5 ∨ r = 6 ∨ r = 7 := by omega
    have hc : c = 0 ∨ c = 1 ∨ c = 2 ∨ c = 3 ∨ c = 4 ∨ c = 5 ∨ c = 6 ∨ c = 7 := by omega
    rcases hr with rfl | rfl | rfl | rfl | rfl | rfl | rfl | rfl <;>
      rcases hc with rfl | rfl | rfl | rfl | rfl | rfl | rfl | rfl <;> decide

/-- C12 at a concrete input: Black to move after the pawn move from `(1, 4)` to
`(3, 4)`, the click on the Black pawn on `(6, 4)` selects it. -/
theorem C12_selection_witness :
    ((pawnE2Moved.selectedRow = -1 ∧ pawnE2Moved.selectedCol = -1) ∧
      isValidSquare 6 4 = true ∧ (pawnE2Moved.board 6 4).type ≠ EMPTY ∧
      (pawnE2Moved.board 6 4).isWhite = pawnE2Moved.isWhiteTurn) ∧
    (mouse pawnE2Moved 6 4).selectedRow = 6 ∧ (mouse pawnE2Moved 6 4).selectedCol = 4 ∧
    (mouse pawnE2Moved 6 4).legalMoves
      = calculateLegalMoves pawnE2Moved.board pawnE2Moved.legalMoves 6 4 :=
  have h := (C12_selection pawnE2Moved 6 4 (by decide) (by decide) (by decide) (by decide)).1
  ⟨⟨by decide, by decide, by decide, by decide⟩, h.1, h.2.1, h.2.2.1⟩

/-- C13 (idle no-op): with no selection, a click on a square that is Empty or
holds a piece of the side not to move leaves the whole state as it is (for an
in-bounds click as for any other coordinates).  On the initial state the click
on `(6, 0)` changes nothing. -/
theorem C13_idle_noop (s : GameState) (row col : Int)
    (hidle : s.selectedRow = -1 ∧ s.selectedCol = -1)
    (hfree : (s.board row col).type = EMPTY ∨
      ((s.board row col).type ≠ EMPTY ∧ (s.board row col).isWhite ≠ s.isWhiteTurn)) :
    mouse s row col = s ∧
      (isValidSquare 6 0 = true ∧ (initialState.board 6 0).type = PAWN ∧
        (initialState.board 6 0).isWhite = false ∧ initialState.isWhiteTurn = true ∧
        mouse initialState 6 0 = initialState) := by
  have hgen : ∀ (t : GameState) (r c : Int), (t.selectedRow = -1 ∧ t.selectedCol = -1) →
      ((t.board r c).type = EMPTY ∨
        ((t.board r c).type ≠ EMPTY ∧ (t.board r c).isWhite ≠ t.isWhiteTurn)) →
      mouse t r c = t := by
    intro t r c hi hf
    refine mouse_noop t r c (Or.inl hi) ?_
    rintro ⟨h1, h2⟩
    rcases hf with hf | hf
    · exact h1 hf
    · exact hf.2 h2
  exact ⟨hgen s row col hidle hfree, by decide, by decide, by decide, rfl,
    hgen initialState 6 0 ⟨rfl, rfl⟩ (Or.inr ⟨by decide, by decide⟩)⟩

/-- C13 at a concrete input: the click on the Empty square `(4, 4)` of the initial
state. -/
theorem C13_idle_noop_witness :
    ((initialState.selectedRow = -1 ∧ initialState.selectedCol = -1) ∧
      isValidSquare 4 4 = true ∧ (initialState.board 4 4).type = EMPTY) ∧
    mouse initialState 4 4 = initialState :=
  ⟨⟨by decide, by decide, by decide⟩,
    (C13_idle_noop initialState 4 4 (by decide) (Or.inl (by decide))).1⟩

/-- C14 (deselection): a click on the selected in-bounds square resets the
selection to `(-1, -1)` and leaves every entry of the mask false, whatever the
mask held, and leaves board, turn and counter alone. -/
theorem C14_deselection (s : GameState)
    (hsel : isValidSquare s.selectedRow s.selectedCol = true) :
    (mouse s s.selectedRow s.selectedCol).selectedRow = -1 ∧
      (mouse s s.selectedRow s.selectedCol).selectedCol = -1 ∧
      (∀ r c : Int, isValidSquare r c = true →
        (mouse s s.selectedRow s.selectedCol).legalMoves r c = false) ∧
      (mouse s s.selectedRow s.selectedCol).board = s.board ∧
      (mouse s s.selectedRow s.selectedCol).isWhiteTurn = s.isWhiteTurn ∧
      (mouse s s.selectedRow s.selectedCol).moveCount = s.moveCount := by
  rw [mouse_deselect s hsel]
  refine ⟨rfl, rfl, ?_, rfl, rfl, rfl⟩
  intro r c hv
  simp only [clearSelection, calculateLegalMoves_none, clearLegalMoves_apply, if_pos hv]

/-- C14 at a concrete input: the click on `(1, 4)` with the pawn on `(1, 4)`
selected. -/
theorem C14_deselection_witness :
    isValidSquare pawnE2Selected.selectedRow pawnE2Selected.selectedCol = true ∧
      (mouse pawnE2Selected pawnE2Selected.selectedRow pawnE2Selected.selectedCol).selectedRow
        = -1 ∧
      (mouse pawnE2Selected pawnE2Selected.selectedRow pawnE2Selected.selectedCol).selectedCol
        = -1 ∧
      (∀ r c : Int, isValidSquare r c = true →
        (mouse pawnE2Selected pawnE2Selected.selectedRow
          pawnE2Selected.selectedCol).legalMoves r c = false) :=
  have h := C14_deselection pawnE2Selected (by decide)
  ⟨by decide, h.1, h.2.1, h.2.2.1⟩

/-- C15 (re-selection): a click on an in-bounds square other than the selected
one that the mask does not mark and that holds a non-Empty piece of the side to
move makes that square the selection and makes the mask the result of
`calculateLegalMoves` for it on the unchanged board; turn and counter are
unchanged.  This holds for every selection, so for every in-bounds one.  With
`(1, 4)` selected in the initial position, the click on `(1, 5)` selects `(1, 5)`
with a mask that is true exactly on `(2, 5)` and `(3, 5)`. -/
theorem C15_reselection (s : GameState) (row col : Int)
    (hv : isValidSquare row col = true)
    (hne : ¬ (row = s.selectedRow ∧ col = s.selectedCol))
    (hlegal : s.legalMoves row col = false)
    (hocc : (s.board row col).type ≠ EMPTY)
    (hcol : (s.board row col).isWhite = s.isWhiteTurn) :
    ((mouse s row col).selectedRow = row ∧ (mouse s row col).selectedCol = col ∧
      (mouse s row col).legalMoves = calculateLegalMoves s.board s.legalMoves row col ∧
      (∀ (m : Mask) (r c : Int), isValidSquare r c = true →
        (mouse s row col).legalMoves r c = calculateLegalMoves s.board m row col r c) ∧
      (mouse s row col).board = s.board ∧
      (mouse s row col).isWhiteTurn = s.isWhiteTurn ∧
      (mouse s row col).moveCount = s.moveCount) ∧
    ((mouse pawnE2Selected 1 5).selectedRow = 1 ∧ (mouse pawnE2Selected 1 5).selectedCol = 5 ∧
      ∀ r c : Int, isValidSquare r c = true →
        ((mouse pawnE2Selected 1 5).legalMoves r c = true ↔
          (r = 2 ∧ c = 5) ∨ (r = 3 ∧ c = 5))) := by
  refine ⟨?_, by decide, by decide, ?_⟩
  · rw [mouse_select s row col hv
      (Or.inr ⟨fun h => hne ⟨h.1.symm, h.2.symm⟩, hlegal⟩) hocc hcol]
    refine ⟨rfl, rfl, rfl, ?_, rfl, rfl, rfl⟩
    intro m r c hrc
    exact calculateLegalMoves_prior s.board s.legalMoves m row col r c hv hrc
  · intro r c hv'
    rw [isValidSquare_iff] at hv'
    have hr : r = 0 ∨ r = 1 ∨ r = 2 ∨ r = 3 ∨ r = 4 ∨ r = 5 ∨ r = 6 ∨ r = 7 := by omega
    have hc : c = 0 ∨ c = 1 ∨ c = 2 ∨ c = 3 ∨ c = 4 ∨ c = 5 ∨ c = 6 ∨ c = 7 := by omega
    rcases hr with rfl | rfl | rfl | rfl | rfl | rfl | rfl | rfl <;>
      rcases hc with rfl | rfl | rfl | rfl | rfl | rfl | rfl | rfl <;> decide

/-- C15 at a concrete input: with the pawn on `(1, 4)` selected, the click on the
knight on `(0, 1)`. -/
theorem C15_reselection_witness :
    (pawnE2Selected.selectedRow = 1 ∧ pawnE2Selected.selectedCol = 4 ∧
      isValidSquare 0 1 = true ∧
      ¬ ((0 : Int) = pawnE2Selected.selectedRow ∧ (1 : Int) = pawnE2Selected.selectedCol) ∧
      pawnE2Selected.legalMoves 0 1 = false ∧ (pawnE2Selected.board 0 1).type ≠ EMPTY ∧
      (pawnE2Selected.board 0 1).isWhite = pawnE2Selected.isWhiteTurn) ∧
    (mouse pawnE2Selected 0 1).selectedRow = 0 ∧ (mouse pawnE2Selected 0 1).selectedCol = 1 ∧
    (mouse pawnE2Selected 0 1).board = pawnE2Selected.board :=
  have h := (C15_reselection pawnE2Selected 0 1 (by decide) (by decide) (by decide)
    (by decide) (by decide)).1
  ⟨⟨by decide, by decide, by decide, by decide, by decide, by decide⟩,
    h.1, h.2.1, h.2.2.2.2.1⟩

/-- C16 (illegal-destination no-op): a click on a square other than the selected
one that the mask does not mark and that is Empty or holds a piece of the side
not to move leaves the whole state as it is: selection, mask, board, turn and
counter.  This holds for every selection and every click, so for every in-bounds
selection and in-bounds click. -/
theorem C16_illegal_destination_noop (s : GameState) (row col : Int)
    (hne : ¬ (row = s.selectedRow ∧ col = s.selectedCol))
    (hlegal : s.legalMoves row col = false)
    (hfree : (s.board row col).type = EMPTY ∨
      ((s.board row col).type ≠ EMPTY ∧ (s.board row col).isWhite ≠ s.isWhiteTurn)) :
    mouse s row col = s := by
  refine mouse_noop s row col (Or.inr ⟨fun h => hne ⟨h.1.symm, h.2.symm⟩, hlegal⟩) ?_
  rintro ⟨h1, h2⟩
  rcases hfree with hf | hf
  · exact h1 hf
  · exact hf.2 h2

/-- C16 at a concrete input: with the pawn on `(1, 4)` selected, the click on the
Empty square `(4, 4)`, which the mask does not mark. -/
theorem C16_illegal_destination_noop_witness :
    (pawnE2Selected.selectedRow = 1 ∧ pawnE2Selected.selectedCol = 4 ∧
      ¬ ((4 : Int) = pawnE2Selected.selectedRow ∧ (4 : Int) = pawnE2Selected.selectedCol) ∧
      pawnE2Selected.legalMoves 4 4 = false ∧ (pawnE2Selected.board 4 4).type = EMPTY) ∧
    mouse pawnE2Selected 4 4 = pawnE2Selected :=
  ⟨⟨by decide, by decide, by decide, by decide, by decide⟩,
    C16_illegal_destination_noop pawnE2Selected 4 4 (by decide) (by decide)
      (Or.inl (by decide))⟩

/-- C17, the claim as stated fails: in the state with the pawn on `(1, 4)` selected
and `moveCount = 2147483647`, the click on `(3, 4)` executes a move after which
the 32-bit counter is neither unchanged nor one more than before, and is less than
before. -/
theorem C17_counterexample :
    pawnE2SelectedAtMax.moveCount = 2147483647 ∧
      (mouse pawnE2SelectedAtMax 3 4).moveCount ≠ pawnE2SelectedAtMax.moveCount ∧
      (mouse pawnE2SelectedAtMax 3 4).moveCount ≠ pawnE2SelectedAtMax.moveCount + 1 ∧
      ¬ (pawnE2SelectedAtMax.moveCount ≤ (mouse pawnE2SelectedAtMax 3 4).moveCount) := by
  decide

/-- C17 as amended (a click completes a move or leaves the position alone): for
every state and every pair of click coordinates, in bounds or not, either board,
turn and counter are unchanged, or the click runs the move branch (a selection, a
click on another square, a marked square), the turn is negated and the counter, if
it was an `int` below `2147483647`, goes up by exactly one.  A counter below
`2147483647` never goes down. -/
theorem C17_click_moves_or_keeps (s : GameState) (row col : Int) :
    (((mouse s row col).board = s.board ∧ (mouse s row col).isWhiteTurn = s.isWhiteTurn ∧
        (mouse s row col).moveCount = s.moveCount) ∨
      ((col ≠ -1 ∧ row ≠ -1) ∧ ¬ (s.selectedRow = -1 ∧ s.selectedCol = -1) ∧
        ¬ (s.selectedRow = row ∧ s.selectedCol = col) ∧ s.legalMoves row col = true ∧
        ((-2147483648 ≤ s.moveCount ∧ s.moveCount < 2147483647) →
          (mouse s row col).moveCount = s.moveCount + 1) ∧
        (mouse s row col).isWhiteTurn = (!s.isWhiteTurn))) ∧
    ((-2147483648 ≤ s.moveCount ∧ s.moveCount < 2147483647) →
      s.moveCount ≤ (mouse s row col).moveCount) := by
  unfold mouse
  split_ifs with h1 h2 h3 h4 h5 h6
  · exact ⟨Or.inl ⟨rfl, rfl, rfl⟩, fun _ => le_refl _⟩
  · exact ⟨Or.inl ⟨rfl, rfl, rfl⟩, fun _ => le_refl _⟩
  · exact ⟨Or.inl ⟨rfl, rfl, rfl⟩, fun _ => le_refl _⟩
  · refine ⟨Or.inr ⟨h1, h2, h4, h5, wrapInt32_succ s.moveCount, rfl⟩, fun hb => ?_⟩
    show s.moveCount ≤ wrapInt32 (s.moveCount + 1)
    rw [wrapInt32_succ s.moveCount hb]
    omega
  · exact ⟨Or.inl ⟨rfl, rfl, rfl⟩, fun _ => le_refl _⟩
  · exact ⟨Or.inl ⟨rfl, rfl, rfl⟩, fun _ => le_refl _⟩
  · exact ⟨Or.inl ⟨rfl, rfl, rfl⟩, fun _ => le_refl _⟩

/-- C17 as amended, at a concrete input: the click on `(3, 4)` with the pawn on
`(1, 4)` selected and the counter at `0`. -/
theorem C17_click_moves_or_keeps_witness :
    (-2147483648 ≤ pawnE2Selected.moveCount ∧ pawnE2Selected.moveCount < 2147483647) ∧
      pawnE2Selected.moveCount ≤ (mouse pawnE2Selected 3 4).moveCount :=
  ⟨by decide, (C17_click_moves_or_keeps pawnE2Selected 3 4).2 (by decide)⟩

/-! ## Clicking the selected square, and the clear-selection key -/

/-- C18, the claim as stated fails: with the pawn on `(1, 4)` selected in the
initial position (a reachable state), two clicks on `(1, 4)` in succession leave
`(1, 4)` selected with `(2, 4)` marked, not an idle state with an all-false mask. -/
theorem C18_counterexample :
    Reachable pawnE2Selected ∧
      pawnE2Selected.selectedRow = 1 ∧ pawnE2Selected.selectedCol = 4 ∧
      (mouse (mouse pawnE2Selected 1 4) 1 4).selectedRow = 1 ∧
      (mouse (mouse pawnE2Selected 1 4) 1 4).selectedCol = 4 ∧
      (mouse (mouse pawnE2Selected 1 4) 1 4).legalMoves 2 4 = true ∧
      ¬ ((mouse (mouse pawnE2Selected 1 4) 1 4).selectedRow = -1 ∧
        (mouse (mouse pawnE2Selected 1 4) 1 4).selectedCol = -1 ∧
        ∀ r c : Int, isValidSquare r c = true →
          (mouse (mouse pawnE2Selected 1 4) 1 4).legalMoves r c = false) :=
  ⟨Reachable.click initialState 1 4 Reachable.init (by decide), by decide, by decide,
    by decide, by decide, by decide, fun h => absurd h.1 (by decide)⟩

/-- C18 as amended: in a reachable state with a selected square, one click on that
square returns to idle (selection `(-1, -1)`) with an all-false mask, and a second
click on it selects it again: after the two clicks the square is selected, the
mask is on the board the result of `calculateLegalMoves` for it, and board, turn
and counter are those of the state before. -/
theorem C18_click_selected_twice (s : GameState) (hs : Reachable s)
    (hsel : isValidSquare s.selectedRow s.selectedCol = true) :
    ((mouse s s.selectedRow s.selectedCol).selectedRow = -1 ∧
      (mouse s s.selectedRow s.selectedCol).selectedCol = -1 ∧
      ∀ r c : Int, isValidSquare r c = true →
        (mouse s s.selectedRow s.selectedCol).legalMoves r c = false) ∧
    ((mouse (mouse s s.selectedRow s.selectedCol) s.selectedRow s.selectedCol).selectedRow
        = s.selectedRow ∧
      (mouse (mouse s s.selectedRow s.selectedCol) s.selectedRow s.selectedCol).selectedCol
        = s.selectedCol ∧
      (∀ r c : Int, isValidSquare r c = true →
        (mouse (mouse s s.selectedRow s.selectedCol) s.selectedRow s.selectedCol).legalMoves r c
          = calculateLegalMoves s.board s.legalMoves s.selectedRow s.selectedCol r c) ∧
      (mouse (mouse s s.selectedRow s.selectedCol) s.selectedRow s.selectedCol).board
        = s.board ∧
      (mouse (mouse s s.selectedRow s.selectedCol) s.selectedRow s.selectedCol).isWhiteTurn
        = s.isWhiteTurn ∧
      (mouse (mouse s s.selectedRow s.selectedCol) s.selectedRow s.selectedCol).moveCount
        = s.moveCount) := by
  have hd := (isValidSquare_iff _ _).1 hsel
  have hinv : (s.board s.selectedRow s.selectedCol).type ≠ EMPTY ∧
      (s.board s.selectedRow s.selectedCol).isWhite = s.isWhiteTurn := by
    rcases reachable_selection s hs with h | h
    · omega
    · exact h.2
  rw [mouse_deselect s hsel]
  refine ⟨⟨rfl, rfl, ?_⟩, ?_⟩
  · intro r c hv
    simp only [clearSelection, calculateLegalMoves_none, clearLegalMoves_apply, if_pos hv]
  · rw [mouse_select (clearSelection s) s.selectedRow s.selectedCol hsel
      (Or.inl ⟨rfl, rfl⟩) hinv.1 hinv.2]
    refine ⟨rfl, rfl, ?_, rfl, rfl, rfl⟩
    intro r c hv
    exact calculateLegalMoves_prior s.board _ _ s.selectedRow s.selectedCol r c hsel hv

/-- C18 as amended, at a concrete input: the pawn on `(1, 4)` selected in the
initial position. -/
theorem C18_click_selected_twice_witness :
    (Reachable pawnE2Selected ∧
      isValidSquare pawnE2Selected.selectedRow pawnE2Selected.selectedCol = true) ∧
    (mouse pawnE2Selected pawnE2Selected.selectedRow pawnE2Selected.selectedCol).selectedRow
      = -1 ∧
    (mouse (mouse pawnE2Selected pawnE2Selected.selectedRow pawnE2Selected.selectedCol)
      pawnE2Selected.selectedRow pawnE2Selected.selectedCol).selectedRow
      = pawnE2Selected.selectedRow :=
  have hr : Reachable pawnE2Selected := Reachable.click initialState 1 4 Reachable.init (by decide)
  have h := C18_click_selected_twice pawnE2Selected hr (by decide)
  ⟨⟨hr, by decide⟩, h.1.1, h.2.1⟩

/-- C19 (select/deselect round trip): from a state with no selection and an
all-false mask, a click on an in-bounds square holding a non-Empty piece of the
side to move and a second click on the same square give back the starting state,
in every component. -/
theorem C19_select_deselect_round_trip (s : GameState) (row col : Int)
    (hidle : s.selectedRow = -1 ∧ s.selectedCol = -1)
    (hmask : ∀ r c : Int, isValidSquare r c = true → s.legalMoves r c = false)
    (hv : isValidSquare row col = true)
    (hocc : (s.board row col).type ≠ EMPTY)
    (hcol : (s.board row col).isWhite = s.isWhiteTurn) :
    mouse (mouse s row col) row col = s := by
  rw [mouse_select s row col hv (Or.inl hidle) hocc hcol]
  have h := mouse_deselect
    { s with
      selectedRow := row
      selectedCol := col
      legalMoves := calculateLegalMoves s.board s.legalMoves row col } hv
  simp only at h
  rw [h]
  obtain ⟨board, legalMoves, turn, count, sr, sc⟩ := s
  obtain ⟨h1, h2⟩ := hidle
  simp only at h1 h2 hmask
  subst h1 h2
  simp only [clearSelection, calculateLegalMoves_none, GameState.mk.injEq, and_true, true_and]
  funext r c
  rw [clearLegalMoves_apply]
  by_cases hrc : isValidSquare r c = true
  · rw [if_pos hrc, hmask r c hrc]
  · rw [if_neg hrc]
    exact calculateLegalMoves_outside board legalMoves row col r c hv (by simpa using hrc)

/-- C19 at a concrete input: two clicks on `(1, 4)` in the initial state. -/
theorem C19_select_deselect_round_trip_witness :
    ((initialState.selectedRow = -1 ∧ initialState.selectedCol = -1) ∧
      isValidSquare 1 4 = true ∧ (initialState.board 1 4).type ≠ EMPTY ∧
      (initialState.board 1 4).isWhite = initialState.isWhiteTurn) ∧
    mouse (mouse initialState 1 4) 1 4 = initialState :=
  ⟨⟨by decide, by decide, by decide, by decide⟩,
    C19_select_deselect_round_trip initialState 1 4 (by decide)
      (fun r c hv => by simp [initialState, initializeBoard_mask, hv])
      (by decide) (by decide) (by decide)⟩

/-- C20 (clearSelection): in every state the keys `c` and `C` run the
clear-selection branch, which sets the selection to `(-1, -1)` and every entry of
the mask to false and leaves board, turn and counter alone; in a state with an
in-bounds selection it gives the same state as a click on the selected square. -/
theorem C20_clear_selection (s : GameState) :
    (keyboard s 'c' = some (clearSelection s) ∧ keyboard s 'C' = some (clearSelection s)) ∧
    ((clearSelection s).selectedRow = -1 ∧ (clearSelection s).selectedCol = -1 ∧
      (∀ r c : Int, isValidSquare r c = true → (clearSelection s).legalMoves r c = false) ∧
      (clearSelection s).board = s.board ∧
      (clearSelection s).isWhiteTurn = s.isWhiteTurn ∧
      (clearSelection s).moveCount = s.moveCount) ∧
    (isValidSquare s.selectedRow s.selectedCol = true →
      clearSelection s = mouse s s.selectedRow s.selectedCol) := by
  refine ⟨⟨?_, ?_⟩, ⟨rfl, rfl, ?_, rfl, rfl, rfl⟩, fun h => (mouse_deselect s h).symm⟩
  · simp [keyboard]
  · simp [keyboard]
  · intro r c hv
    simp only [clearSelection, calculateLegalMoves_none, clearLegalMoves_apply, if_pos hv]

/-- C20 at a concrete input: with the pawn on `(1, 4)` selected, the key `c` and
the click on `(1, 4)` give the same state. -/
theorem C20_clear_selection_witness :
    isValidSquare pawnE2Selected.selectedRow pawnE2Selected.selectedCol = true ∧
      keyboard pawnE2Selected 'c' = some (clearSelection pawnE2Selected) ∧
      clearSelection pawnE2Selected
        = mouse pawnE2Selected pawnE2Selected.selectedRow pawnE2Selected.selectedCol :=
  ⟨by decide, (C20_clear_selection pawnE2Selected).1.1,
    (C20_clear_selection pawnE2Selected).2.2 (by decide)⟩

/-! ## Degenerate origins, residue, and the occupancy predicates -/

/-- With a coordinate equal to `-1` the function `calculateLegalMoves` only runs
its clearing loop. -/
theorem calculateLegalMoves_sentinel (board : Board) (m : Mask) (row col : Int)
    (h : row = -1 ∨ col = -1) :
    calculateLegalMoves board m row col = clearLegalMoves m := by
  unfold calculateLegalMoves
  rcases h with h | h
  · rw [if_pos h]
  · by_cases hr : row = -1
    · rw [if_pos hr]
    · rw [if_neg hr, if_pos h]

/-- C21 (degenerate selection gives an empty mask): whatever the board and the
mask before, `calculateLegalMoves row col` leaves every entry of the mask false
when `row = -1` or `col = -1`, and when `(row, col)` is an in-bounds square whose
piece is Empty. -/
theorem C21_degenerate_selection (board : Board) (legalMoves : Mask) (row col : Int)
    (h : row = -1 ∨ col = -1 ∨
      (isValidSquare row col = true ∧ (board row col).type = EMPTY)) :
    ∀ r c : Int, isValidSquare r c = true →
      calculateLegalMoves board legalMoves row col r c = false := by
  intro r c hv
  rcases h with h | h | ⟨_, h⟩
  · rw [calculateLegalMoves_sentinel board legalMoves row col (Or.inl h),
      clearLegalMoves_apply, if_pos hv]
  · rw [calculateLegalMoves_sentinel board legalMoves row col (Or.inr h),
      clearLegalMoves_apply, if_pos hv]
  · rw [calculateLegalMoves_empty board legalMoves row col h, clearLegalMoves_apply, if_pos hv]

/-- C21 at a concrete input: the Empty square `(4, 4)` of the initial board, with a
mask that was true everywhere. -/
theorem C21_degenerate_selection_witness :
    (isValidSquare 4 4 = true ∧ (initialState.board 4 4).type = EMPTY) ∧
      ∀ r c : Int, isValidSquare r c = true →
        calculateLegalMoves initialState.board (fun _ _ => true) 4 4 r c = false :=
  ⟨⟨by decide, by decide⟩,
    C21_degenerate_selection initialState.board (fun _ _ => true) 4 4
      (Or.inr (Or.inr ⟨by decide, by decide⟩))⟩

/-- C22 (no residue): for an in-bounds origin, and for an origin with a coordinate
equal to `-1`, the mask that `calculateLegalMoves` leaves on the 64 squares is the
same for any two previous contents of `legalMoves`: it is a function of the board
and the origin only. -/
theorem C22_no_residue (board : Board) (m m' : Mask) (row col : Int)
    (h : isValidSquare row col = true ∨ row = -1 ∨ col = -1) :
    ∀ r c : Int, isValidSquare r c = true →
      calculateLegalMoves board m row col r c = calculateLegalMoves board m' row col r c := by
  intro r c hv
  rcases h with h | h
  · exact calculateLegalMoves_prior board m m' row col r c h hv
  · rw [calculateLegalMoves_sentinel board m row col h,
      calculateLegalMoves_sentinel board m' row col h, clearLegalMoves_apply,
      clearLegalMoves_apply, if_pos hv, if_pos hv]

/-- C22 at a concrete input: the rook of `rookScenario` with an all-true and an
all-false previous mask. -/
theorem C22_no_residue_witness :
    isValidSquare 3 3 = true ∧
      ∀ r c : Int, isValidSquare r c = true →
        calculateLegalMoves rookScenario (fun _ _ => true) 3 3 r c =
          calculateLegalMoves rookScenario (fun _ _ => false) 3 3 r c :=
  ⟨by decide,
    C22_no_residue rookScenario (fun _ _ => true) (fun _ _ => false) 3 3 (Or.inl (by decide))⟩

/-- C23 (the occupancy predicates fail closed and partition the board):
`isValidSquare` holds exactly for `0 ≤ row < 8` and `0 ≤ col < 8`; out of bounds
`isEmpty`, `isEnemy` and `isFriendly` are all false; in bounds `isEmpty` holds iff
the kind is Empty, `isEnemy k` iff the piece is non-Empty of a colour other than
`k`, `isFriendly k` iff it is non-Empty of colour `k`, and exactly one of the three
holds. -/
theorem C23_occupancy_predicates (board : Board) (row col : Int) (k : Bool) :
    (isValidSquare row col = true ↔ (0 ≤ row ∧ row < 8 ∧ 0 ≤ col ∧ col < 8)) ∧
    (isValidSquare row col = false →
      isEmpty board row col = false ∧ isEnemy board row col k = false ∧
        isFriendly board row col k = false) ∧
    (isValidSquare row col = true →
      (isEmpty board row col = true ↔ (board row col).type = EMPTY) ∧
      (isEnemy board row col k = true ↔
        ((board row col).type ≠ EMPTY ∧ (board row col).isWhite ≠ k)) ∧
      (isFriendly board row col k = true ↔
        ((board row col).type ≠ EMPTY ∧ (board row col).isWhite = k)) ∧
      ((isEmpty board row col = true ∧ isEnemy board row col k = false ∧
          isFriendly board row col k = false) ∨
        (isEmpty board row col = false ∧ isEnemy board row col k = true ∧
          isFriendly board row col k = false) ∨
        (isEmpty board row col = false ∧ isEnemy board row col k = false ∧
          isFriendly board row col k = true))) := by
  refine ⟨isValidSquare_iff row col, ?_, ?_⟩
  · intro h
    simp [isEmpty, isEnemy, isFriendly, h]
  · intro h
    refine ⟨by simp [isEmpty, h], by simp [isEnemy, h], by simp [isFriendly, h], ?_⟩
    by_cases ht : (board row col).type = EMPTY
    · simp [isEmpty, isEnemy, isFriendly, h, ht]
    · by_cases hc : (board row col).isWhite = k
      · simp [isEmpty, isEnemy, isFriendly, h, ht, hc]
      · simp [isEmpty, isEnemy, isFriendly, h, ht, hc]

/-- A click whose coordinates have `row = -1` or `col = -1` leaves the whole state
as it is. -/
theorem mouse_sentinel (s : GameState) (row col : Int) (h : row = -1 ∨ col = -1) :
    mouse s row col = s := by
  have h1 : ¬ (col ≠ -1 ∧ row ≠ -1) := by
    rintro ⟨hc, hr⟩
    rcases h with h | h
    · exact hr h
    · exact hc h
  simp only [mouse, if_neg h1]

/-- When a converted coordinate is out of range, `mouseToBoard` gives `(-1, -1)`. -/
theorem mouseToBoard_out_of_range (boardX boardY : Rat)
    (h : isValidSquare (castToInt boardY) (castToInt boardX) = false) :
    mouseToBoard boardX boardY = (-1, -1) := by
  have hb : castToInt boardX < 0 ∨ castToInt boardX ≥ 8 ∨ castToInt boardY < 0 ∨
      castToInt boardY ≥ 8 := by
    rw [isValidSquare_eq_false_iff] at h
    omega
  simp only [mouseToBoard, if_pos hb]

/-- The sliding loop on two boards with the same occupancy predicates. -/
theorem slideLoop_congr (board board' : Board) (row col : Int) (w : Bool) (dr dc : Int)
    (hE : isEmpty board' = isEmpty board) (hN : isEnemy board' = isEnemy board) :
    ∀ (n : Nat) (i : Int) (m : Mask),
      slideLoop board' row col w dr dc n i m = slideLoop board row col w dr dc n i m := by
  intro n
  induction n with
  | zero => intro i m; rfl
  | succ n ih =>
    intro i m
    simp only [slideLoop, hE, hN, ih]

/-- The mask computed by `calculateLegalMoves` is the same on two boards that agree
on the kind and the colour of every square. -/
theorem calculateLegalMoves_congr (board board' : Board) (m : Mask) (row col : Int)
    (hagree : ∀ r c : Int,
      (board' r c).type = (board r c).type ∧ (board' r c).isWhite = (board r c).isWhite) :
    calculateLegalMoves board' m row col = calculateLegalMoves board m row col := by
  have hE : isEmpty board' = isEmpty board := by
    funext r c; simp only [isEmpty, (hagree r c).1]
  have hN : isEnemy board' = isEnemy board := by
    funext r c w; simp only [isEnemy, (hagree r c).1, (hagree r c).2]
  simp only [calculateLegalMoves, calculatePawnMoves, calculateRookMoves, calculateBishopMoves,
    calculateKnightMoves, calculateQueenMoves, calculateKingMoves, hE, hN,
    slideLoop_congr board board' row col _ _ _ hE hN, (hagree row col).1, (hagree row col).2]

/-- C25 (the `hasMoved` flag never influences legality): on two boards that agree
on the kind and the colour of every square, whatever the `hasMoved` flags,
`calculateLegalMoves` computes the same mask for every origin; and a pawn on its
start row with the two squares ahead Empty has the square two steps ahead marked,
whatever its `hasMoved` flag. -/
theorem C25_hasMoved_irrelevant (board board' : Board) (legalMoves : Mask) (row col : Int)
    (hagree : ∀ r c : Int,
      (board' r c).type = (board r c).type ∧ (board' r c).isWhite = (board r c).isWhite) :
    calculateLegalMoves board' legalMoves row col = calculateLegalMoves board legalMoves row col ∧
    (isValidSquare row col = true → (board row col).type = PAWN →
      row = startRow (board row col).isWhite →
      (board (row + direction (board row col).isWhite) col).type = EMPTY →
      (board (row + 2 * direction (board row col).isWhite) col).type = EMPTY →
        calculateLegalMoves board legalMoves row col
          (row + 2 * direction (board row col).isWhite) col = true) := by
  refine ⟨calculateLegalMoves_congr board board' legalMoves row col hagree, ?_⟩
  intro hv hpawn hstart he1 he2
  have e : row + 2 * direction (board row col).isWhite
      = row + direction (board row col).isWhite + direction (board row col).isWhite := by ring
  have hv0 := (isValidSquare_iff _ _).1 hv
  have hgen : ∀ w : Bool, row = startRow w →
      (row = 1 ∧ direction w = 1) ∨ (row = 6 ∧ direction w = -1) := by
    intro w hw
    cases w
    · exact Or.inr ⟨hw, rfl⟩
    · exact Or.inl ⟨hw, rfl⟩
  have hd := hgen _ hstart
  have hv1 : isValidSquare (row + direction (board row col).isWhite) col = true := by
    rw [isValidSquare_iff]; omega
  have hv2 : isValidSquare
      (row + direction (board row col).isWhite + direction (board row col).isWhite) col = true := by
    rw [isValidSquare_iff]; omega
  rw [e] at he2 ⊢
  rw [calculateLegalMoves_pawn board legalMoves row col hv hpawn, calculatePawnMoves_apply]
  exact Or.inr (Or.inr (Or.inl ⟨rfl, rfl, (isEmpty_iff _ _ _).2 ⟨hv1, he1⟩, hstart,
    (isEmpty_iff _ _ _).2 ⟨hv2, he2⟩⟩))

/-- C25 at a concrete input: the initial board and the initial board with every
`hasMoved` flag set give the same mask for the pawn on `(1, 4)`. -/
theorem C25_hasMoved_irrelevant_witness :
    (initialBoardAllMoved 1 4).hasMoved = true ∧ (initialState.board 1 4).hasMoved = false ∧
      calculateLegalMoves initialBoardAllMoved (fun _ _ => false) 1 4 =
        calculateLegalMoves initialState.board (fun _ _ => false) 1 4 :=
  ⟨by decide, by decide,
    (C25_hasMoved_irrelevant initialState.board initialBoardAllMoved (fun _ _ => false) 1 4
      (fun _ _ => ⟨rfl, rfl⟩)).1⟩

/-! ## Turn and counter -/

/-- A click keeps the parity relation between turn and counter. -/
theorem parity_invariant_mouse (s : GameState) (row col : Int)
    (h : s.isWhiteTurn = true ↔ s.moveCount % 2 = 0) :
    (mouse s row col).isWhiteTurn = true ↔ (mouse s row col).moveCount % 2 = 0 := by
  have hwrap : wrapInt32 (s.moveCount + 1) % 2 = (s.moveCount + 1) % 2 := by
    unfold wrapInt32
    omega
  unfold mouse
  split_ifs
  all_goals first
    | exact h
    | (simp only [Bool.not_eq_true', hwrap]
       cases hw : s.isWhiteTurn
       · have := h.not.1 (by rw [hw]; simp)
         constructor
         · intro _; omega
         · intro _; rfl
       · have := h.1 hw
         constructor
         · intro hf; exact absurd hf (by simp)
         · intro h2; omega)

/-- C28 (turn/count parity): in every reachable state `isWhiteTurn` is true iff
`moveCount` is even.  The counter goes up by one per move, and the reduction to
32 bits, by a multiple of `4294967296`, keeps the parity. -/
theorem C28_turn_count_parity (s : GameState) (hs : Reachable s) :
    s.isWhiteTurn = true ↔ s.moveCount % 2 = 0 := by
  induction hs with
  | init => decide
  | click s row col _ _ ih => exact parity_invariant_mouse s row col ih
  | offBoard s _ ih => exact parity_invariant_mouse s (-1) (-1) ih
  | clear s _ ih => exact ih

/-- C28 at a concrete input: after the pawn move from `(1, 4)` to `(3, 4)` it is
Black's turn and the counter is `1`. -/
theorem C28_turn_count_parity_witness :
    Reachable pawnE2Moved ∧ pawnE2Moved.moveCount = 1 ∧
      (pawnE2Moved.isWhiteTurn = true ↔ pawnE2Moved.moveCount % 2 = 0) :=
  have hr : Reachable pawnE2Moved :=
    Reachable.click pawnE2Selected 3 4
      (Reachable.click initialState 1 4 Reachable.init (by decide)) (by decide)
  ⟨hr, by decide, C28_turn_count_parity pawnE2Moved hr⟩

/-! ## No check detection -/

/-- A sequence of clicks on squares of the board leads from a reachable state to a
reachable state. -/
theorem reachable_clickAll (clicks : List (Int × Int)) :
    ∀ s : GameState, Reachable s → (∀ p ∈ clicks, isValidSquare p.1 p.2 = true) →
      Reachable (clickAll s clicks) := by
  induction clicks with
  | nil => intro s hs _; exact hs
  | cons p rest ih =>
    intro s hs hv
    exact ih (mouse s p.1 p.2)
      (Reachable.click s p.1 p.2 hs (hv p (List.mem_cons_self p rest)))
      (fun q hq => hv q (List.mem_cons_of_mem p hq))

/-- C26 (no check detection): the ten clicks of `kingCaptureClicks`, all on squares
of the board, lead from the initial state to a reachable state in which five moves
have been executed, Black is to move, the White queen stands on `(7, 4)`, and no
square of the board holds a Black king. -/
theorem C26_king_can_be_captured :
    (∀ p ∈ kingCaptureClicks, isValidSquare p.1 p.2 = true) ∧
      Reachable kingCaptured ∧
      kingCaptured.moveCount = 5 ∧
      kingCaptured.isWhiteTurn = false ∧
      (initialState.board 7 4 = ⟨KING, false, false⟩ ∧
        kingCaptured.board 7 4 = ⟨QUEEN, true, true⟩) ∧
      (∀ r c : Int, isValidSquare r c = true →
        ¬ ((kingCaptured.board r c).type = KING ∧ (kingCaptured.board r c).isWhite = false)) := by
  refine ⟨by decide, reachable_clickAll _ _ Reachable.init (by decide), by decide, by decide,
    ⟨by decide, by decide⟩, ?_⟩
  intro r c hv
  rw [isValidSquare_iff] at hv
  have hr : r = 0 ∨ r = 1 ∨ r = 2 ∨ r = 3 ∨ r = 4 ∨ r = 5 ∨ r = 6 ∨ r = 7 := by omega
  have hc : c = 0 ∨ c = 1 ∨ c = 2 ∨ c = 3 ∨ c = 4 ∨ c = 5 ∨ c = 6 ∨ c = 7 := by omega
  rcases hr with rfl | rfl | rfl | rfl | rfl | rfl | rfl | rfl <;>
    rcases hc with rfl | rfl | rfl | rfl | rfl | rfl | rfl | rfl <;> decide

/-! ## The mask of a selected square -/

/-- A click keeps the mask of a selected square equal, on the board, to what
`calculateLegalMoves` computes for that square. -/
theorem mask_consistency_mouse (s : GameState) (row col : Int)
    (hclick : isValidSquare row col = true ∨ (row = -1 ∧ col = -1))
    (h : isValidSquare s.selectedRow s.selectedCol = true →
      ∀ (m : Mask) (r c : Int), isValidSquare r c = true →
        s.legalMoves r c = calculateLegalMoves s.board m s.selectedRow s.selectedCol r c) :
    isValidSquare (mouse s row col).selectedRow (mouse s row col).selectedCol = true →
      ∀ (m : Mask) (r c : Int), isValidSquare r c = true →
        (mouse s row col).legalMoves r c =
          calculateLegalMoves (mouse s row col).board m (mouse s row col).selectedRow
            (mouse s row col).selectedCol r c := by
  rcases hclick with hv | ⟨rfl, rfl⟩
  · unfold mouse
    split_ifs with h1 h2 h3 h4 h5 h6
    · intro _ m r c hrc
      exact calculateLegalMoves_prior s.board s.legalMoves m row col r c hv hrc
    · exact h
    · intro hsel
      have hneg : isValidSquare (-1) (-1) = true := hsel
      exact absurd hneg (by decide)
    · intro hsel
      have hneg : isValidSquare (-1) (-1) = true := hsel
      exact absurd hneg (by decide)
    · intro _ m r c hrc
      exact calculateLegalMoves_prior s.board s.legalMoves m row col r c hv hrc
    · exact h
    · exact h
  · simpa [mouse] using h

theorem reachable_mask (s : GameState) (hs : Reachable s) :
    isValidSquare s.selectedRow s.selectedCol = true →
      ∀ (m : Mask) (r c : Int), isValidSquare r c = true →
        s.legalMoves r c = calculateLegalMoves s.board m s.selectedRow s.selectedCol r c := by
  induction hs with
  | init =>
    intro h
    have hneg : isValidSquare (-1) (-1) = true := h
    exact absurd hneg (by decide)
  | click s row col _ hv ih => exact mask_consistency_mouse s row col (Or.inl hv) ih
  | offBoard s _ ih => exact mask_consistency_mouse s (-1) (-1) (Or.inr ⟨rfl, rfl⟩) ih
  | clear s _ _ =>
    intro h
    have hneg : isValidSquare (-1) (-1) = true := h
    exact absurd hneg (by decide)

/-- C27 (mask consistency): in every reachable state with a selected square, that
square is on the board and `legalMoves` is, on the 64 squares, exactly the mask
that `calculateLegalMoves` computes for it on the current board, whatever the mask
before; so the entry `legalMoves[dst]` tested at move execution is the verdict of
the move generator for the piece on the selected square. -/
theorem C27_mask_consistency (s : GameState) (hs : Reachable s)
    (hsel : ¬ (s.selectedRow = -1 ∧ s.selectedCol = -1)) :
    isValidSquare s.selectedRow s.selectedCol = true ∧
      ∀ (m : Mask) (r c : Int), isValidSquare r c = true →
        s.legalMoves r c = calculateLegalMoves s.board m s.selectedRow s.selectedCol r c := by
  rcases reachable_selection s hs with h | h
  · exact absurd h hsel
  · exact ⟨h.1, reachable_mask s hs h.1⟩

/-- C27 at a concrete input: the state with the pawn on `(1, 4)` selected. -/
theorem C27_mask_consistency_witness :
    (Reachable pawnE2Selected ∧
      ¬ (pawnE2Selected.selectedRow = -1 ∧ pawnE2Selected.selectedCol = -1)) ∧
    ∀ (m : Mask) (r c : Int), isValidSquare r c = true →
      pawnE2Selected.legalMoves r c =
        calculateLegalMoves pawnE2Selected.board m pawnE2Selected.selectedRow
          pawnE2Selected.selectedCol r c :=
  have hr : Reachable pawnE2Selected := Reachable.click initialState 1 4 Reachable.init (by decide)
  ⟨⟨hr, by decide⟩, (C27_mask_consistency pawnE2Selected hr (by decide)).2⟩

/-! ## Pawns, their start row and the `hasMoved` flag -/

/-- The board after the three assignments of the move branch of `mouse`. -/
theorem moved_board_apply (b : Board) (row col sr sc : Int) (r c : Int)
    (hne : ¬ (sr = row ∧ sc = col)) :
    setPiece (setPiece (setPiece b row col (b sr sc)) sr sc Piece.default) row col
        { setPiece (setPiece b row col (b sr sc)) sr sc Piece.default row col with
          hasMoved := true } r c =
      if r = row ∧ c = col then { b sr sc with hasMoved := true }
      else if r = sr ∧ c = sc then Piece.default
      else b r c := by
  have hne' : ¬ (row = sr ∧ col = sc) := fun h => hne ⟨h.1.symm, h.2.symm⟩
  simp only [setPiece_apply, if_neg hne', and_self, if_true]
  by_cases h1 : r = row ∧ c = col
  · simp only [if_pos h1]
  · simp only [if_neg h1]

/-- A square of the board marked for a pawn is one or two rows ahead of it. -/
theorem pawn_destination (board : Board) (m : Mask) (r0 c0 x y : Int)
    (hv : isValidSquare r0 c0 = true) (hp : (board r0 c0).type = PAWN)
    (hxy : isValidSquare x y = true)
    (h : calculateLegalMoves board m r0 c0 x y = true) :
    x = r0 + direction (board r0 c0).isWhite ∨ x = r0 + 2 * direction (board r0 c0).isWhite := by
  rw [calculateLegalMoves_pawn board m r0 c0 hv hp, calculatePawnMoves_apply,
    clearLegalMoves_apply, if_pos hxy] at h
  rcases h with h | ⟨h, _⟩ | ⟨h, _⟩ | ⟨h, _⟩ | ⟨h, _⟩
  · exact absurd h (by simp)
  · exact Or.inl h
  · right; rw [h]; ring
  · exact Or.inl h
  · exact Or.inl h

theorem pawnRows_initial : PawnRows initialState.board := by
  intro r c hv
  rw [isValidSquare_iff] at hv
  have hr : r = 0 ∨ r = 1 ∨ r = 2 ∨ r = 3 ∨ r = 4 ∨ r = 5 ∨ r = 6 ∨ r = 7 := by omega
  have hc : c = 0 ∨ c = 1 ∨ c = 2 ∨ c = 3 ∨ c = 4 ∨ c = 5 ∨ c = 6 ∨ c = 7 := by omega
  rcases hr with rfl | rfl | rfl | rfl | rfl | rfl | rfl | rfl <;>
    rcases hc with rfl | rfl | rfl | rfl | rfl | rfl | rfl | rfl <;> decide

/-- A click in a reachable state keeps the pawns on or ahead of their start rows,
with `hasMoved` false exactly on the start row. -/
theorem pawnRows_mouse (s : GameState) (row col : Int) (hs : Reachable s)
    (hv : isValidSquare row col = true) (hP : PawnRows s.board) :
    PawnRows (mouse s row col).board := by
  unfold mouse
  split_ifs with h1 h2 h3 h4 h5 h6
  · exact hP
  · exact hP
  · exact hP
  · have hselv : isValidSquare s.selectedRow s.selectedCol = true := by
      rcases reachable_selection s hs with h | h
      · exact absurd h h2
      · exact h.1
    have hmark := (reachable_mask s hs hselv s.legalMoves row col hv).symm.trans h5
    show PawnRows
      (setPiece (setPiece (setPiece s.board row col (s.board s.selectedRow s.selectedCol))
        s.selectedRow s.selectedCol Piece.default) row col
        { setPiece (setPiece s.board row col (s.board s.selectedRow s.selectedCol))
            s.selectedRow s.selectedCol Piece.default row col with hasMoved := true })
    intro r c hrc
    simp only [moved_board_apply s.board row col s.selectedRow s.selectedCol r c h4]
    by_cases hd : r = row ∧ c = col
    · simp only [if_pos hd]
      intro hp
      have hdst := pawn_destination s.board s.legalMoves s.selectedRow s.selectedCol row col
        hselv hp hv hmark
      have hsrc := hP s.selectedRow s.selectedCol hselv hp
      obtain ⟨rfl, rfl⟩ := hd
      constructor
      · intro hw
        have hb := (hsrc.1 hw).1
        rw [hw] at hdst
        have hdir : direction true = 1 := rfl
        rw [hdir] at hdst
        refine ⟨by omega, ?_⟩
        constructor
        · intro hf; exact absurd hf (by simp)
        · intro hr; omega
      · intro hw
        have hb := (hsrc.2 hw).1
        rw [hw] at hdst
        have hdir : direction false = -1 := rfl
        rw [hdir] at hdst
        refine ⟨by omega, ?_⟩
        constructor
        · intro hf; exact absurd hf (by simp)
        · intro hr; omega
    · simp only [if_neg hd]
      by_cases hsq : r = s.selectedRow ∧ c = s.selectedCol
      · simp only [if_pos hsq]
        intro hp
        exact absurd hp (by simp [Piece.default])
      · simp only [if_neg hsq]
        exact hP r c hrc
  · exact hP
  · exact hP
  · exact hP

theorem reachable_pawnRows (s : GameState) (hs : Reachable s) : PawnRows s.board := by
  induction hs with
  | init => exact pawnRows_initial
  | click s row col hs hv ih => exact pawnRows_mouse s row col hs hv ih
  | offBoard s _ ih =>
    have h : mouse s (-1) (-1) = s := by simp [mouse]
    rw [h]; exact ih
  | clear s _ ih => exact ih

/-- C29 (start row and `hasMoved` agree for pawns): in every reachable state a pawn
on a square of the board stands on the start row of its colour iff its `hasMoved`
flag is false; hence a pawn whose flag is set never has the square two steps ahead
marked by `calculateLegalMoves`. -/
theorem C29_pawn_start_row_iff_unmoved (s : GameState) (hs : Reachable s) (r c : Int)
    (hv : isValidSquare r c = true) (hp : (s.board r c).type = PAWN) :
    (r = startRow (s.board r c).isWhite ↔ (s.board r c).hasMoved = false) ∧
    ((s.board r c).hasMoved = true → ∀ m : Mask,
      isValidSquare (r + 2 * direction (s.board r c).isWhite) c = true →
        calculateLegalMoves s.board m r c (r + 2 * direction (s.board r c).isWhite) c = false) := by
  have hrows := reachable_pawnRows s hs r c hv hp
  have hiff : r = startRow (s.board r c).isWhite ↔ (s.board r c).hasMoved = false := by
    cases hw : (s.board r c).isWhite
    · exact ((hrows.2 hw).2).symm
    · exact ((hrows.1 hw).2).symm
  refine ⟨hiff, ?_⟩
  intro hmoved m hv2
  have hstart : r ≠ startRow (s.board r c).isWhite := by
    intro h
    have := hiff.1 h
    rw [hmoved] at this
    exact absurd this (by simp)
  have hd : direction (s.board r c).isWhite = 1 ∨ direction (s.board r c).isWhite = -1 := by
    cases (s.board r c).isWhite <;> simp [direction]
  rw [← Bool.not_eq_true, calculateLegalMoves_pawn s.board m r c hv hp, calculatePawnMoves_apply,
    clearLegalMoves_apply, if_pos hv2]
  rintro (h | ⟨h, _⟩ | ⟨_, _, _, h, _⟩ | ⟨h, _⟩ | ⟨h, _⟩)
  · exact absurd h (by simp)
  · omega
  · exact hstart h
  · omega
  · omega

/-- C29 at a concrete input: after its move the pawn on `(3, 4)` has its flag set,
is off its start row, and does not have `(5, 4)` marked. -/
theorem C29_pawn_start_row_iff_unmoved_witness :
    (Reachable pawnE2Moved ∧ isValidSquare 3 4 = true ∧ (pawnE2Moved.board 3 4).type = PAWN ∧
      (pawnE2Moved.board 3 4).hasMoved = true) ∧
    ((3 : Int) = startRow (pawnE2Moved.board 3 4).isWhite ↔
      (pawnE2Moved.board 3 4).hasMoved = false) ∧
    calculateLegalMoves pawnE2Moved.board (fun _ _ => true) 3 4
      (3 + 2 * direction (pawnE2Moved.board 3 4).isWhite) 4 = false :=
  have hr : Reachable pawnE2Moved :=
    Reachable.click pawnE2Selected 3 4
      (Reachable.click initialState 1 4 Reachable.init (by decide)) (by decide)
  have h := C29_pawn_start_row_iff_unmoved pawnE2Moved hr 3 4 (by decide) (by decide)
  ⟨⟨hr, by decide, by decide, by decide⟩, h.1, h.2 (by decide) (fun _ _ => true) (by decide)⟩

/-! ## Checked array indexing -/

theorem readBoard_of_valid (board : Board) (row col : Int) (h : isValidSquare row col = true) :
    readBoard board row col = some (board row col) := by
  simp only [readBoard, if_pos ((isValidSquare_iff row col).1 h)]

theorem writeLegal_of_valid (m : Mask) (row col : Int) (v : Bool)
    (h : isValidSquare row col = true) :
    writeLegal m row col v = some (setLegal m row col v) := by
  simp only [writeLegal, if_pos ((isValidSquare_iff row col).1 h)]

/-- The checked `isEmpty` never leaves the array, for any coordinates. -/
theorem isEmptyChecked_eq (board : Board) (row col : Int) :
    isEmptyChecked board row col = some (isEmpty board row col) := by
  unfold isEmptyChecked isEmpty
  by_cases h : isValidSquare row col = true
  · simp [h, readBoard_of_valid board row col h]
  · simp [h]

/-- The checked `isEnemy` never leaves the array, for any coordinates. -/
theorem isEnemyChecked_eq (board : Board) (row col : Int) (w : Bool) :
    isEnemyChecked board row col w = some (isEnemy board row col w) := by
  unfold isEnemyChecked isEnemy
  by_cases h : isValidSquare row col = true
  · by_cases ht : (board row col).type = EMPTY
    · simp [h, readBoard_of_valid board row col h, ht]
    · simp [h, readBoard_of_valid board row col h, ht]
  · simp [h]

/-- The checked `isFriendly` never leaves the array, for any coordinates. -/
theorem isFriendlyChecked_eq (board : Board) (row col : Int) (w : Bool) :
    isFriendlyChecked board row col w = some (isFriendly board row col w) := by
  unfold isFriendlyChecked isFriendly
  by_cases h : isValidSquare row col = true
  · by_cases ht : (board row col).type = EMPTY
    · simp [h, readBoard_of_valid board row col h, ht]
    · simp [h, readBoard_of_valid board row col h, ht]
  · simp [h]

/-- A write guarded by a test that implies the bounds. -/
theorem guarded_writeLegal (cond : Bool) (m : Mask) (row col : Int)
    (h : cond = true → isValidSquare row col = true) :
    (if cond = true then writeLegal m row col true else some m) =
      some (if cond = true then setLegal m row col true else m) := by
  by_cases hc : cond = true
  · rw [if_pos hc, if_pos hc, writeLegal_of_valid m row col true (h hc)]
  · rw [if_neg hc, if_neg hc]

/-- A loop in which no step fails. -/
theorem foldlM_some {α β : Type} (f : α → β → Option α) (g : α → β → α) (l : List β)
    (h : ∀ (a : α) (b : β), b ∈ l → f a b = some (g a b)) :
    ∀ a : α, l.foldlM f a = some (l.foldl g a) := by
  induction l with
  | nil => intro a; rfl
  | cons b rest ih =>
    intro a
    rw [List.foldlM_cons, h a b (List.mem_cons_self b rest)]
    exact ih (fun a' b' hb' => h a' b' (List.mem_cons_of_mem b hb')) (g a b)

theorem calculatePawnMovesChecked_eq (board : Board) (m : Mask) (row col : Int) (w : Bool) :
    calculatePawnMovesChecked board m row col w = some (calculatePawnMoves board m row col w) := by
  unfold calculatePawnMovesChecked calculatePawnMoves
  simp only [isEmptyChecked_eq, isEnemyChecked_eq, Option.some_bind]
  have hE : ∀ r c : Int, isEmpty board r c = true → isValidSquare r c = true :=
    fun r c h => ((isEmpty_iff board r c).1 h).1
  have hN : ∀ r c : Int, isEnemy board r c w = true → isValidSquare r c = true :=
    fun r c h => ((isEnemy_iff board r c w).1 h).1
  have hm1 :
      (if isEmpty board (row + direction w) col = true then
        (writeLegal m (row + direction w) col true).bind fun m' =>
          if row = startRow w then
            if isEmpty board (row + direction w + direction w) col = true then
              writeLegal m' (row + direction w + direction w) col true
            else some m'
          else some m'
      else some m) =
      some (if isEmpty board (row + direction w) col = true then
        if row = startRow w ∧ isEmpty board (row + direction w + direction w) col = true then
          setLegal (setLegal m (row + direction w) col true)
            (row + direction w + direction w) col true
        else setLegal m (row + direction w) col true
      else m) := by
    by_cases h1 : isEmpty board (row + direction w) col = true
    · rw [if_pos h1, if_pos h1, writeLegal_of_valid _ _ _ _ (hE _ _ h1), Option.some_bind]
      by_cases hs : row = startRow w
      · by_cases h2 : isEmpty board (row + direction w + direction w) col = true
        · rw [if_pos hs, if_pos h2, if_pos (And.intro hs h2),
            writeLegal_of_valid _ _ _ _ (hE _ _ h2)]
        · rw [if_pos hs, if_neg h2, if_neg (fun h => h2 h.2)]
      · rw [if_neg hs, if_neg (fun h => hs h.1)]
    · rw [if_neg h1, if_neg h1]
  rw [hm1]
  simp only [Option.some_bind, guarded_writeLegal _ _ _ _ (hN _ _)]

theorem slideLoopChecked_eq (board : Board) (row col : Int) (w : Bool) (dr dc : Int) :
    ∀ (n : Nat) (i : Int) (m : Mask),
      slideLoopChecked board row col w dr dc n i m =
        some (slideLoop board row col w dr dc n i m) := by
  intro n
  induction n with
  | zero => intro i m; rfl
  | succ n ih =>
    intro i m
    simp only [slideLoopChecked, slideLoop, isEmptyChecked_eq, isEnemyChecked_eq,
      Option.some_bind]
    by_cases hval : isValidSquare (row + i * dr) (col + i * dc) = true
    · simp only [hval, Bool.not_true, Bool.false_eq_true, if_false]
      by_cases hemp : isEmpty board (row + i * dr) (col + i * dc) = true
      · rw [if_pos hemp, if_pos hemp, writeLegal_of_valid _ _ _ _ hval, Option.some_bind, ih]
      · rw [if_neg hemp, if_neg hemp]
        exact guarded_writeLegal _ _ _ _ (fun _ => hval)
    · simp only [hval, Bool.not_false, if_true]

/-- The loop body of `calculateKnightMoves` and `calculateKingMoves` with checked
indexing never leaves the array. -/
theorem offsetStepChecked_eq (board : Board) (m : Mask) (newRow newCol : Int) (w : Bool) :
    (if isValidSquare newRow newCol = true then
      (isEmptyChecked board newRow newCol).bind fun e =>
        if e = true then writeLegal m newRow newCol true
        else
          (isEnemyChecked board newRow newCol w).bind fun en =>
            if en = true then writeLegal m newRow newCol true else some m
    else some m) =
    some (if (isValidSquare newRow newCol &&
        (isEmpty board newRow newCol || isEnemy board newRow newCol w)) = true then
      setLegal m newRow newCol true else m) := by
  simp only [isEmptyChecked_eq, isEnemyChecked_eq, Option.some_bind]
  by_cases hval : isValidSquare newRow newCol = true
  · rw [if_pos hval]
    by_cases hemp : isEmpty board newRow newCol = true
    · rw [if_pos hemp, writeLegal_of_valid _ _ _ _ hval, if_pos (by simp [hval, hemp])]
    · rw [if_neg hemp]
      by_cases hen : isEnemy board newRow newCol w = true
      · rw [if_pos hen, writeLegal_of_valid _ _ _ _ hval, if_pos (by simp [hval, hen])]
      · rw [if_neg hen, if_neg (by simp [hemp, hen])]
  · rw [if_neg hval, if_neg (by simp [hval])]

theorem calculateRookMovesChecked_eq (board : Board) (m : Mask) (row col : Int) (w : Bool) :
    calculateRookMovesChecked board m row col w = some (calculateRookMoves board m row col w) :=
  foldlM_some _ _ rookDirections
    (fun a d _ => slideLoopChecked_eq board row col w d.1 d.2 7 1 a) m

theorem calculateBishopMovesChecked_eq (board : Board) (m : Mask) (row col : Int) (w : Bool) :
    calculateBishopMovesChecked board m row col w =
      some (calculateBishopMoves board m row col w) :=
  foldlM_some _ _ bishopDirections
    (fun a d _ => slideLoopChecked_eq board row col w d.1 d.2 7 1 a) m

theorem calculateKnightMovesChecked_eq (board : Board) (m : Mask) (row col : Int) (w : Bool) :
    calculateKnightMovesChecked board m row col w =
      some (calculateKnightMoves board m row col w) :=
  foldlM_some _ _ knightMoves
    (fun a k _ => offsetStepChecked_eq board a (row + k.1) (col + k.2) w) m

theorem calculateQueenMovesChecked_eq (board : Board) (m : Mask) (row col : Int) (w : Bool) :
    calculateQueenMovesChecked board m row col w =
      some (calculateQueenMoves board m row col w) := by
  simp only [calculateQueenMovesChecked, calculateQueenMoves, calculateRookMovesChecked_eq,
    Option.some_bind, calculateBishopMovesChecked_eq]

theorem calculateKingMovesChecked_eq (board : Board) (m : Mask) (row col : Int) (w : Bool) :
    calculateKingMovesChecked board m row col w =
      some (calculateKingMoves board m row col w) := by
  refine foldlM_some _ _ idx3 (fun a dr _ => ?_) m
  refine foldlM_some _ _ idx3 (fun a' dc _ => ?_) a
  by_cases h0 : dr = 0 ∧ dc = 0
  · simp only [if_pos h0]
  · simp only [if_neg h0]
    exact offsetStepChecked_eq board a' (row + dr) (col + dc) w

theorem clearLegalMovesChecked_eq (m : Mask) :
    clearLegalMovesChecked m = some (clearLegalMoves m) := by
  have hmem : ∀ x : Int, x ∈ idx8 → 0 ≤ x ∧ x < 8 := by
    intro x hx
    simp only [idx8, List.mem_cons, List.mem_nil_iff, or_false] at hx
    omega
  refine foldlM_some _ _ idx8 (fun a r hr => ?_) m
  refine foldlM_some _ _ idx8 (fun a' c hc => ?_) a
  exact writeLegal_of_valid a' r c false
    ((isValidSquare_iff r c).2 ⟨(hmem r hr).1, (hmem r hr).2, (hmem c hc).1, (hmem c hc).2⟩)

/-- With checked indexing `calculateLegalMoves` never leaves the arrays, for an
in-bounds origin and for an origin with a coordinate equal to `-1`, and computes
the mask of the unchecked function. -/
theorem calculateLegalMovesChecked_eq (board : Board) (m : Mask) (row col : Int)
    (h : isValidSquare row col = true ∨ row = -1 ∨ col = -1) :
    calculateLegalMovesChecked board m row col = some (calculateLegalMoves board m row col) := by
  unfold calculateLegalMovesChecked
  rw [clearLegalMovesChecked_eq, Option.some_bind]
  by_cases hr : row = -1
  · rw [if_pos hr, calculateLegalMoves_sentinel board m row col (Or.inl hr)]
  · rw [if_neg hr]
    by_cases hc : col = -1
    · rw [if_pos hc, calculateLegalMoves_sentinel board m row col (Or.inr hc)]
    · rw [if_neg hc]
      have hv : isValidSquare row col = true := by
        rcases h with h | h | h
        · exact h
        · exact absurd h hr
        · exact absurd h hc
      rw [readBoard_of_valid board row col hv]
      simp only [Option.some_bind]
      rcases hty : (board row col).type with _ | _ | _ | _ | _ | _ | _
      · rw [if_neg (by decide), calculateLegalMoves_pawn board m row col hv hty]
        exact calculatePawnMovesChecked_eq board _ row col _
      · rw [if_neg (by decide), calculateLegalMoves_rook board m row col hv hty]
        exact calculateRookMovesChecked_eq board _ row col _
      · rw [if_neg (by decide), calculateLegalMoves_knight board m row col hv hty]
        exact calculateKnightMovesChecked_eq board _ row col _
      · rw [if_neg (by decide), calculateLegalMoves_bishop board m row col hv hty]
        exact calculateBishopMovesChecked_eq board _ row col _
      · rw [if_neg (by decide), calculateLegalMoves_queen board m row col hv hty]
        exact calculateQueenMovesChecked_eq board _ row col _
      · rw [if_neg (by decide), calculateLegalMoves_king board m row col hv hty]
        exact calculateKingMovesChecked_eq board _ row col _
      · rw [if_pos rfl, calculateLegalMoves_empty board m row col hty]

/-- C30 (in-bounds indexing of the move generators): for every board, every
previous mask and every in-bounds origin, `calculateLegalMoves` with checked array
indexing never takes the out-of-range branch: it returns `some` mask, the mask of
the unchecked function, which leaves every cell outside the array as it was.  The
checked predicates return `some` for all coordinates.  A pawn on its last rank
(White on row 7, Black on row 0) gets an all-false mask. -/
theorem C30_in_bounds_indexing (board : Board) (legalMoves : Mask) (row col : Int)
    (hv : isValidSquare row col = true) :
    calculateLegalMovesChecked board legalMoves row col =
        some (calculateLegalMoves board legalMoves row col) ∧
      (∀ r c : Int, isValidSquare r c = false →
        calculateLegalMoves board legalMoves row col r c = legalMoves r c) ∧
      (∀ (r c : Int) (k : Bool),
        isEmptyChecked board r c = some (isEmpty board r c) ∧
        isEnemyChecked board r c k = some (isEnemy board r c k) ∧
        isFriendlyChecked board r c k = some (isFriendly board r c k)) ∧
      ((board row col).type = PAWN →
        (((board row col).isWhite = true ∧ row = 7) ∨
          ((board row col).isWhite = false ∧ row = 0)) →
        ∀ r c : Int, isValidSquare r c = true →
          calculateLegalMoves board legalMoves row col r c = false) := by
  refine ⟨calculateLegalMovesChecked_eq board legalMoves row col (Or.inl hv),
    fun r c hrc => calculateLegalMoves_outside board legalMoves row col r c hv hrc,
    fun r c k => ⟨isEmptyChecked_eq board r c, isEnemyChecked_eq board r c k,
      isFriendlyChecked_eq board r c k⟩, ?_⟩
  intro hp hlast r c hrc
  have hout : isValidSquare (row + direction (board row col).isWhite) c = false ∧
      ∀ y : Int, isValidSquare (row + direction (board row col).isWhite) y = false := by
    rcases hlast with ⟨hw, h7⟩ | ⟨hw, h0⟩
    · rw [hw, h7]
      have hdir : direction true = 1 := rfl
      rw [hdir]
      exact ⟨by rw [isValidSquare_eq_false_iff]; omega,
        fun y => by rw [isValidSquare_eq_false_iff]; omega⟩
    · rw [hw, h0]
      have hdir : direction false = -1 := rfl
      rw [hdir]
      exact ⟨by rw [isValidSquare_eq_false_iff]; omega,
        fun y => by rw [isValidSquare_eq_false_iff]; omega⟩
  have hE : ∀ y : Int, ¬ isEmpty board (row + direction (board row col).isWhite) y = true := by
    intro y h
    have := ((isEmpty_iff _ _ _).1 h).1
    rw [hout.2 y] at this
    exact absurd this (by simp)
  have hN : ∀ (y : Int) (w : Bool),
      ¬ isEnemy board (row + direction (board row col).isWhite) y w = true := by
    intro y w h
    have := ((isEnemy_iff _ _ _ _).1 h).1
    rw [hout.2 y] at this
    exact absurd this (by simp)
  rw [← Bool.not_eq_true, calculateLegalMoves_pawn board legalMoves row col hv hp,
    calculatePawnMoves_apply, clearLegalMoves_apply, if_pos hrc]
  rintro (h | ⟨_, _, h⟩ | ⟨_, _, h, _⟩ | ⟨_, _, h⟩ | ⟨_, _, h⟩)
  · exact absurd h (by simp)
  · exact hE _ h
  · exact hE _ h
  · exact hN _ _ h
  · exact hN _ _ h

/-- C30 at concrete inputs: the knight in the corner `(0, 0)`, and the White pawn
on its last rank on `(7, 0)`. -/
theorem C30_in_bounds_indexing_witness :
    (isValidSquare 0 0 = true ∧ (cornerKnight 0 0).type = KNIGHT ∧
      isValidSquare 7 0 = true ∧ (lastRankPawn 7 0).type = PAWN ∧
      (lastRankPawn 7 0).isWhite = true) ∧
    calculateLegalMovesChecked cornerKnight (fun _ _ => false) 0 0 =
      some (calculateLegalMoves cornerKnight (fun _ _ => false) 0 0) ∧
    calculateLegalMovesChecked lastRankPawn (fun _ _ => true) 7 0 =
      some (calculateLegalMoves lastRankPawn (fun _ _ => true) 7 0) ∧
    (∀ r c : Int, isValidSquare r c = true →
      calculateLegalMoves lastRankPawn (fun _ _ => true) 7 0 r c = false) :=
  ⟨⟨by decide, by decide, by decide, by decide, by decide⟩,
    (C30_in_bounds_indexing cornerKnight (fun _ _ => false) 0 0 (by decide)).1,
    (C30_in_bounds_indexing lastRankPawn (fun _ _ => true) 7 0 (by decide)).1,
    (C30_in_bounds_indexing lastRankPawn (fun _ _ => true) 7 0 (by decide)).2.2.2
      (by decide) (Or.inl ⟨by decide, rfl⟩)⟩

/-- The checked generators evaluated: the knight in the corner gets `(1, 2)` and
`(2, 1)` and nothing is read or written out of range. -/
theorem cornerKnight_checked :
    (calculateLegalMovesChecked cornerKnight (fun _ _ => false) 0 0).isSome = true ∧
      calculateLegalMoves cornerKnight (fun _ _ => false) 0 0 1 2 = true ∧
      calculateLegalMoves cornerKnight (fun _ _ => false) 0 0 2 1 = true := by
  decide

/-- The checked function does fail on an access out of range: for the origin
`(8, 0)` the read of `board[8][0]` gives `none`. -/
theorem calculateLegalMovesChecked_out_of_range (board : Board) (m : Mask) :
    calculateLegalMovesChecked board m 8 0 = none := by
  unfold calculateLegalMovesChecked
  rw [clearLegalMovesChecked_eq, Option.some_bind]
  simp [readBoard]

end Chess
